import Mathlib

/-!
# Verification of the block-snapping canvas core

Shallow embedding of `src/components/Canvas.tsx`: rectangular blocks that are
dragged with a pointer and snap together into vertical chains linked by
`nextBlockId`.  Coordinates are embedded as `Int` (the TypeScript code only
ever adds, subtracts and compares them, so integer inputs stay integral and
the order-theoretic claims are unchanged).  The TypeScript `while` loops that
follow `nextBlockId` links have no step bound; they are embedded with an
explicit fuel of `length + 1`, and divergence of the original loops on cyclic
inputs is captured by theorems about the underlying id sequence never
reaching its exit condition.
-/

/-- The side reported by the snap test (`"top" | "bottom"` in the source). -/
inductive Side where
  | top : Side
  | bottom : Side
deriving Repr, DecidableEq

/-- A block: rectangle with identity and an optional link to the block
immediately below it in its chain (`type Block` in the source). -/
structure Block where
  id : String
  x : Int
  y : Int
  width : Int
  height : Int
  color : String
  nextBlockId : Option String
deriving Repr, DecidableEq

/-- The transient drag session (`type DragState` in the source). -/
structure DragState where
  blockId : String
  stackIds : List String
  offsetX : Int
  offsetY : Int
deriving Repr, DecidableEq

/-- A collision record (`type BlockCollision` in the source). -/
structure BlockCollision where
  blockId : String
  collidingWithId : String
  side : Side
deriving Repr, DecidableEq

/-- The reactive state of the component: the signals `blocks`, `dragState`,
`mousePos`, `hoveredBlockId` and `activeCollisions`. -/
structure CanvasState where
  blocks : List Block
  dragState : Option DragState
  mousePosX : Int
  mousePosY : Int
  hoveredBlockId : Option String
  activeCollisions : List BlockCollision
deriving Repr, DecidableEq

/-- `getBlockById`: `blocks().find((b) => b.id === id)`. -/
def getBlockById (bs : List Block) (id : String) : Option Block :=
  bs.find? (fun b => b.id == id)

/-- `getBlockAbove`: `blocks().find((b) => b.nextBlockId === blockId)`. -/
def getBlockAbove (bs : List Block) (blockId : String) : Option Block :=
  bs.find? (fun b => b.nextBlockId == some blockId)

/-- One step of every `nextBlockId` walk: from the id of the current block to
`getBlockById(currentId)?.nextBlockId`. -/
def nextIdOf (bs : List Block) (i : String) : Option String :=
  (getBlockById bs i).bind (fun b => b.nextBlockId)

/-- One step of a walk on `Option String` (`undefined` is absorbing). -/
def optNext (bs : List Block) : Option String → Option String
  | none => none
  | some i => nextIdOf bs i

/-- The id sequence followed by the `while (currentId)` loops of the source:
`idSeq bs start k` is the value of `currentId` after `k` iterations. -/
def idSeq (bs : List Block) (start : Option String) : Nat → Option String
  | 0 => start
  | k + 1 => optNext bs (idSeq bs start k)

/-- The list of ids pushed by the loop of `getConnectedBlocksBelow`, with an
explicit fuel standing in for the unbounded `while` of the source. -/
def chainIds (bs : List Block) : Nat → Option String → List String
  | _, none => []
  | 0, some _ => []
  | fuel + 1, some i => i :: chainIds bs fuel (nextIdOf bs i)

/-- `getConnectedBlocksBelow`: walk `nextBlockId` from `blockId`'s successor,
collecting ids, stopping at `undefined` or a dangling id.  The source loop has
no step bound; fuel `length + 1` is enough whenever the walk terminates. -/
def getConnectedBlocksBelow (bs : List Block) (blockId : String) : List String :=
  chainIds bs (bs.length + 1) ((getBlockById bs blockId).bind (fun b => b.nextBlockId))

/-- The loop of `findLastConnectedBlock`. -/
def findLastLoop (bs : List Block) : Nat → Block → Block
  | 0, current => current
  | fuel + 1, current =>
    match current.nextBlockId with
    | none => current
    | some nid =>
      match getBlockById bs nid with
      | none => current
      | some nb => findLastLoop bs fuel nb

/-- `findLastConnectedBlock`: the bottom-most block reachable from
`startBlockId`, treating a dangling reference as end of chain. -/
def findLastConnectedBlock (bs : List Block) (startBlockId : String) : Option Block :=
  match getBlockById bs startBlockId with
  | none => none
  | some b => some (findLastLoop bs (bs.length + 1) b)

/-- `isPointInBlock`: inclusive-bounds containment test. -/
def isPointInBlock (x y : Int) (b : Block) : Bool :=
  decide (x ≥ b.x ∧ x ≤ b.x + b.width ∧ y ≥ b.y ∧ y ≤ b.y + b.height)

/-- `getSnapCollision`: tolerance-based edge-alignment test; horizontal
alignment first, then the top check, then the bottom check. -/
def getSnapCollision (active target : Block) : Option Side :=
  if min (|active.x - target.x|) (|active.x + active.width - (target.x + target.width)|) ≤ 20 then
    if |active.y + active.height - target.y| ≤ 20 then some Side.top
    else if |active.y - (target.y + target.height)| ≤ 20 then some Side.bottom
    else none
  else none

/-- The records contributed by one ordered pair in `detectAllCollisions`. -/
def collidePair (a b : Block) : List BlockCollision :=
  (match getSnapCollision a b with
   | some s => [⟨a.id, b.id, s⟩]
   | none => []) ++
  (match getSnapCollision b a with
   | some s => [⟨b.id, a.id, s⟩]
   | none => [])

/-- `detectAllCollisions`: both directions of every unordered pair, in the
double-loop order of the source. -/
def detectAllCollisions : List Block → List BlockCollision
  | [] => []
  | a :: rest => (rest.map (fun b => collidePair a b)).flatten ++ detectAllCollisions rest

/-- `updated[index] = f(updated[index])` after `findIndex`: replace the first
block with the given id, leave the list unchanged when the id is absent. -/
def updateFirst (bs : List Block) (i : String) (f : Block → Block) : List Block :=
  match bs with
  | [] => []
  | b :: rest => if b.id == i then f b :: rest else b :: updateFirst rest i f

/-- The upward `while (currentAboveId)` loop of `moveBlock`: ancestors are
looked up in the original list (`getBlockAbove` reads the pre-update signal),
positions are written into the accumulating list. -/
def moveUpLoop (orig : List Block) (newX : Int) :
    Nat → List Block → Int → Option String → List Block
  | _, updated, _, none => updated
  | 0, updated, _, some _ => updated
  | fuel + 1, updated, curY, some aid =>
    match getBlockById updated aid with
    | none => updated
    | some blk =>
      let newY := curY - blk.height
      moveUpLoop orig newX fuel
        (updateFirst updated aid (fun b => { b with x := newX, y := newY }))
        newY ((getBlockAbove orig aid).map (fun b => b.id))

/-- The downward `while (currentBelowId)` loop of `moveBlock`. -/
def moveDownLoop (newX : Int) : Nat → List Block → Int → Option String → List Block
  | _, updated, _, none => updated
  | 0, updated, _, some _ => updated
  | fuel + 1, updated, curY, some bid =>
    match getBlockById updated bid with
    | none => updated
    | some blk =>
      moveDownLoop newX fuel
        (updateFirst updated bid (fun b => { b with x := newX, y := curY }))
        (curY + blk.height) blk.nextBlockId

/-- `moveBlock`: set the target block to `(newX, newY)`, then restack every
ancestor above it and every descendant below it, all sharing `newX`. -/
def moveBlock (bs : List Block) (blockId : String) (newX newY : Int) : List Block :=
  match getBlockById bs blockId with
  | none => bs
  | some blk =>
    let fuel := bs.length + 1
    let updated := updateFirst bs blockId (fun b => { b with x := newX, y := newY })
    let afterUp := moveUpLoop bs newX fuel updated newY
      ((getBlockAbove bs blockId).map (fun b => b.id))
    moveDownLoop newX fuel afterUp (newY + blk.height) blk.nextBlockId

/-- `connectBlocks`: set `top.nextBlockId = bottomBlockId`. -/
def connectBlocks (bs : List Block) (topBlockId bottomBlockId : String) : List Block :=
  bs.map (fun b => if b.id == topBlockId then { b with nextBlockId := some bottomBlockId } else b)

/-- `disconnectBlock`: clear `nextBlockId` on every block that points at
`blockId`. -/
def disconnectBlock (bs : List Block) (blockId : String) : List Block :=
  bs.map (fun b => if b.nextBlockId == some blockId then { b with nextBlockId := none } else b)

/-- The loop of `updateStackPositions`: walk from `startBlockId`, rewriting
`y` only, advancing by each block's height. -/
def stackPosLoop : Nat → List Block → Int → Option String → List Block
  | _, u, _, none => u
  | 0, u, _, some _ => u
  | fuel + 1, u, curY, some i =>
    match getBlockById u i with
    | none => u
    | some b =>
      stackPosLoop fuel (updateFirst u i (fun bb => { bb with y := curY }))
        (curY + b.height) b.nextBlockId

/-- `updateStackPositions`. -/
def updateStackPositions (bs : List Block) (startBlockId : String) (startY : Int) : List Block :=
  stackPosLoop (bs.length + 1) bs startY (some startBlockId)

/-- `handleMouseMove`: record the pointer, re-run the hover hit-test, and when
a drag is active move the grabbed block to `pointer - offset`. -/
def handleMouseMove (pos : Int × Int) (s : CanvasState) : CanvasState :=
  let hovered := (s.blocks.find? (fun b => isPointInBlock pos.1 pos.2 b)).map (fun b => b.id)
  let s1 := { s with mousePosX := pos.1, mousePosY := pos.2, hoveredBlockId := hovered }
  match s.dragState with
  | none => s1
  | some d =>
    { s1 with blocks := moveBlock s.blocks d.blockId (pos.1 - d.offsetX) (pos.2 - d.offsetY) }

/-- `handleMouseDown`: hit-test at the current mouse position (`find` returns
the first block in list order), snapshot all pairwise collisions, disconnect
the clicked block from its predecessor, and start a drag session whose stack
is the clicked block followed by everything connected below it. -/
def handleMouseDown (s : CanvasState) : CanvasState :=
  match s.blocks.find? (fun b => isPointInBlock s.mousePosX s.mousePosY b) with
  | none => { s with activeCollisions := [] }
  | some clicked =>
    let collisions := detectAllCollisions s.blocks
    let bs1 := disconnectBlock s.blocks clicked.id
    let stackIds := clicked.id :: getConnectedBlocksBelow bs1 clicked.id
    { s with blocks := bs1, activeCollisions := collisions,
             dragState := some { blockId := clicked.id, stackIds := stackIds,
                                 offsetX := s.mousePosX - clicked.x,
                                 offsetY := s.mousePosY - clicked.y } }

/-- The insertion condition of `handleMouseUp` for one candidate `topBlock`:
skip stack members, require an existing successor outside the stack, then the
vertical gap test and the horizontal span-overlap test (tolerance 20). -/
def insertCond (stackIds : List String) (first : Block) (bsAll : List Block)
    (topBlock : Block) : Bool :=
  if stackIds.contains topBlock.id then false else
  match topBlock.nextBlockId with
  | none => false
  | some nid =>
    match getBlockById bsAll nid with
    | none => false
    | some bottomBlock =>
      if stackIds.contains bottomBlock.id then false else
      (decide (topBlock.y + topBlock.height - 20 < first.y) &&
       decide (first.y < bottomBlock.y + 20)) &&
      (decide (first.x + first.width ≥ topBlock.x) &&
       decide (first.x ≤ topBlock.x + topBlock.width))

/-- The state mutation performed when insertion succeeds at `topBlock`:
relink `topBlock → first` and `last → bottomBlock`, move `first` to
`(topBlock.x, topBlock.y + topBlock.height)`, then restack from `first`. -/
def insertEffect (first last : Block) (bsAll : List Block) (topBlock : Block) : List Block :=
  match topBlock.nextBlockId with
  | none => bsAll
  | some nid =>
    match getBlockById bsAll nid with
    | none => bsAll
    | some bottomBlock =>
      let newY := topBlock.y + topBlock.height
      let bs1 := bsAll.map (fun b =>
        if b.id == topBlock.id then { b with nextBlockId := some first.id }
        else if b.id == last.id then { b with nextBlockId := some bottomBlock.id }
        else b)
      let bs2 := moveBlock bs1 first.id topBlock.x newY
      updateStackPositions bs2 first.id newY

/-- The insertion `for` loop of `handleMouseUp`: first candidate in list order
wins; `none` when no candidate applies. -/
def insertionLoop (stackIds : List String) (first last : Block) (bsAll : List Block) :
    List Block → Option (List Block)
  | [] => none
  | topBlock :: rest =>
    if insertCond stackIds first bsAll topBlock then
      some (insertEffect first last bsAll topBlock)
    else insertionLoop stackIds first last bsAll rest

/-- The state mutation of the append-below branch (`topSnap === "top"`). -/
def appendBelowEffect (last : Block) (bsAll : List Block) (target : Block) : List Block :=
  let bs1 := moveBlock bsAll last.id target.x (target.y - last.height)
  let bs2 := connectBlocks bs1 last.id target.id
  updateStackPositions bs2 target.id target.y

/-- The state mutation of the append-above branch (`bottomSnap === "bottom"`). -/
def appendAboveEffect (first : Block) (bsAll : List Block) (lastTarget : Block) : List Block :=
  let newY := lastTarget.y + lastTarget.height
  let bs1 := moveBlock bsAll first.id lastTarget.x newY
  let bs2 := connectBlocks bs1 lastTarget.id first.id
  updateStackPositions bs2 first.id newY

/-- The fallback snapping `for` loop of `handleMouseUp`: for each non-stack
target, try `snapSide(last, target) == top`, then
`snapSide(first, tailOf(target)) == bottom`. -/
def appendLoop (stackIds : List String) (first last : Block) (bsAll : List Block) :
    List Block → Option (List Block)
  | [] => none
  | target :: rest =>
    if stackIds.contains target.id then appendLoop stackIds first last bsAll rest
    else if getSnapCollision last target = some Side.top then
      some (appendBelowEffect last bsAll target)
    else
      match findLastConnectedBlock bsAll target.id with
      | none => appendLoop stackIds first last bsAll rest
      | some lastTarget =>
        if getSnapCollision first lastTarget = some Side.bottom then
          some (appendAboveEffect first bsAll lastTarget)
        else appendLoop stackIds first last bsAll rest

/-- The blocks of the session's stack that still exist
(`stackIds.map(getBlockById).filter(defined)`). -/
def stackBlocksOf (bs : List Block) (ids : List String) : List Block :=
  ids.filterMap (fun i => getBlockById bs i)

/-- `handleMouseUp`: no-op without a session; otherwise try insertion first,
then the append loop, and unconditionally clear the session and the collision
records. -/
def handleMouseUp (s : CanvasState) : CanvasState :=
  match s.dragState with
  | none => s
  | some d =>
    match stackBlocksOf s.blocks d.stackIds with
    | [] => { s with dragState := none, activeCollisions := [] }
    | first :: rest =>
      let last := (first :: rest).getLast (List.cons_ne_nil first rest)
      let newBlocks :=
        match insertionLoop d.stackIds first last s.blocks s.blocks with
        | some nb => nb
        | none =>
          match appendLoop d.stackIds first last s.blocks s.blocks with
          | some nb => nb
          | none => s.blocks
      { s with blocks := newBlocks, dragState := none, activeCollisions := [] }

/-- The rendering order of `draw()`'s sort: with no active drag the comparator
always returns 0 and the stable sort keeps list order; with a drag the stack's
members are moved to the end (drawn last, painted on top). -/
def paintOrder (s : CanvasState) : List Block :=
  match s.dragState with
  | none => s.blocks
  | some d =>
    s.blocks.filter (fun b => !(d.stackIds.contains b.id)) ++
      s.blocks.filter (fun b => d.stackIds.contains b.id)

/-- The seed configuration of five unconnected blocks. -/
def seedBlocks : List Block :=
  [ { id := "1", x := 0,   y := 0,   width := 200, height := 50, color := "red",    nextBlockId := none },
    { id := "2", x := 200, y := 70,  width := 200, height := 50, color := "blue",   nextBlockId := none },
    { id := "3", x := 300, y := 170, width := 200, height := 50, color := "green",  nextBlockId := none },
    { id := "4", x := 400, y := 270, width := 200, height := 50, color := "purple", nextBlockId := none },
    { id := "5", x := 500, y := 370, width := 200, height := 50, color := "orange", nextBlockId := none } ]

/-- The initial component state. -/
def seedState : CanvasState :=
  { blocks := seedBlocks, dragState := none, mousePosX := 0, mousePosY := 0,
    hoveredBlockId := none, activeCollisions := [] }

/-- A pointer event as delivered to the three public handlers. -/
inductive PointerEvent where
  | move (x y : Int) : PointerEvent
  | down : PointerEvent
  | up : PointerEvent
deriving Repr, DecidableEq

/-- Dispatch one pointer event. -/
def applyEvent (s : CanvasState) : PointerEvent → CanvasState
  | .move x y => handleMouseMove (x, y) s
  | .down => handleMouseDown s
  | .up => handleMouseUp s

/-- Run a sequence of pointer events. -/
def runEvents (s : CanvasState) (es : List PointerEvent) : CanvasState :=
  es.foldl applyEvent s

/-- In-degree of an id in the `nextBlockId` relation: how many blocks point
at it. -/
def inDeg (bs : List Block) (i : String) : Nat :=
  bs.countP (fun b => b.nextBlockId == some i)

/-- Every block has at most one in-edge. -/
def InDegLe1 (bs : List Block) : Prop :=
  ∀ b ∈ bs, inDeg bs b.id ≤ 1

/-- No block id is reachable from itself by following `nextBlockId`. -/
def Acyclic (bs : List Block) : Prop :=
  ∀ b ∈ bs, ∀ k : Nat, idSeq bs (some b.id) (k + 1) ≠ some b.id

/-- The spec's structural invariant: the `nextBlockId` relation is a forest of
simple chains (out-degree ≤ 1 is structural, since `nextBlockId` is a single
optional field). -/
def Forest (bs : List Block) : Prop :=
  InDegLe1 bs ∧ Acyclic bs

/-- The structural projection of a block list: ids and `nextBlockId` links.
Position updates leave it unchanged. -/
def structOf (bs : List Block) : List (String × Option String) :=
  bs.map (fun b => (b.id, b.nextBlockId))

/-- Event script reaching a state with two in-edges on block `"2"`: first snap
block 2 under block 1 (chain `1 → 2`), then drag block 3 right above block 2's
top edge; the append-below branch connects `3 → 2` without checking that `2`
still has the predecessor `1`. -/
def cx1Events : List PointerEvent :=
  [ .move 210 80, .down, .move 10 60, .up,
    .move 310 180, .down, .move 10 10, .up ]

/-- Block `"2"` as it appears after running `cx1Events`. -/
def cx1blk2 : Block :=
  { id := "2", x := 0, y := 50, width := 200, height := 50, color := "blue", nextBlockId := none }

/-- Event script for the drag round-trip: build the chain `1 → 2`, then grab
block 2 (which disconnects `1 → 2`), move the pointer by `(500, 400)` and
release over empty space. -/
def c4Events : List PointerEvent :=
  [ .move 210 80, .down, .move 10 60, .up,
    .move 15 65, .down, .move 515 465, .up ]

/-- The state just before the round-trip drag of `c4Events` begins. -/
def c4PreState : CanvasState :=
  runEvents seedState [ .move 210 80, .down, .move 10 60, .up ]

/-- The state after the full `c4Events` script. -/
def c4PostState : CanvasState := runEvents seedState c4Events

/-- Two fully overlapping blocks for the hit-test order counterexample. -/
def cx9b1 : Block :=
  { id := "1", x := 0, y := 0, width := 200, height := 50, color := "red", nextBlockId := none }

/-- The later-listed (hence later-drawn, painted on top) of the two
overlapping blocks. -/
def cx9b2 : Block :=
  { id := "2", x := 0, y := 0, width := 200, height := 50, color := "blue", nextBlockId := none }

/-- A state whose mouse position lies inside both overlapping blocks. -/
def cx9 : CanvasState :=
  { blocks := [cx9b1, cx9b2], dragState := none, mousePosX := 10, mousePosY := 10,
    hoveredBlockId := none, activeCollisions := [] }

/-- A square whose top edge is within tolerance of its own bottom edge: both
the top-snap and the bottom-snap conditions hold at once. -/
def c5sq : Block :=
  { id := "A", x := 0, y := 0, width := 10, height := 10, color := "red", nextBlockId := none }

/-- Active rectangle sitting exactly `tolerance` below the target's bottom. -/
def c5at20 : Block :=
  { id := "A", x := 0, y := 50, width := 100, height := 30, color := "red", nextBlockId := none }

/-- Active rectangle sitting `tolerance + 1` below the target's bottom. -/
def c5at21 : Block :=
  { id := "A", x := 0, y := 51, width := 100, height := 30, color := "red", nextBlockId := none }

/-- Target rectangle for the boundary checks (bottom edge at `y = 30`). -/
def c5tgt : Block :=
  { id := "B", x := 0, y := 0, width := 100, height := 30, color := "green", nextBlockId := none }

/-- A two-block cycle in the `nextBlockId` relation. -/
def cycBlocks : List Block :=
  [ { id := "1", x := 0, y := 0,  width := 10, height := 10, color := "r", nextBlockId := some "2" },
    { id := "2", x := 0, y := 20, width := 10, height := 10, color := "g", nextBlockId := some "1" } ]

/-- A chain `a → b → "zz"` whose last link dangles (no block has id `"zz"`). -/
def wDang : List Block :=
  [ { id := "a", x := 0, y := 0,  width := 10, height := 10, color := "r", nextBlockId := some "b" },
    { id := "b", x := 0, y := 10, width := 10, height := 10, color := "g", nextBlockId := some "zz" } ]

/-- The head block of `wDang`. -/
def wDangA : Block :=
  { id := "a", x := 0, y := 0, width := 10, height := 10, color := "r", nextBlockId := some "b" }

/-- A list in which two different blocks point at `"9"` (a violated in-edge
uniqueness that `disconnectBlock` must repair wholesale). -/
def w10bs : List Block :=
  [ { id := "a", x := 0, y := 0, width := 10, height := 10, color := "r", nextBlockId := some "9" },
    { id := "b", x := 1, y := 1, width := 10, height := 10, color := "g", nextBlockId := some "9" },
    { id := "c", x := 2, y := 2, width := 10, height := 10, color := "w", nextBlockId := some "x" } ]

/-- A list in which no block points at `"9"`. -/
def w10nop : List Block :=
  [ { id := "a", x := 0, y := 0, width := 10, height := 10, color := "r", nextBlockId := some "7" },
    { id := "b", x := 1, y := 1, width := 10, height := 10, color := "g", nextBlockId := none } ]

/-- A state with an active but stale drag session (its stack id names no
existing block). -/
def w8state : CanvasState :=
  { blocks := [], dragState := some { blockId := "z", stackIds := ["z"], offsetX := 0, offsetY := 0 },
    mousePosX := 0, mousePosY := 0, hoveredBlockId := none,
    activeCollisions := [ { blockId := "z", collidingWithId := "y", side := Side.top } ] }

/-- One upward step in the ancestor relation: from a block id to the id of
the first block whose `nextBlockId` points at it. -/
def aboveStep (bs : List Block) : Option String → Option String
  | none => none
  | some i => (getBlockAbove bs i).map (fun a => a.id)

/-- Iterated upward steps. -/
def aboveIter (bs : List Block) : Nat → Option String → Option String
  | 0, cur => cur
  | t + 1, cur => aboveIter bs t (aboveStep bs cur)

/-- The non-positional shape of a block list: id, link and height of every
block, in order.  The walks of `moveBlock` and `updateStackPositions` only
rewrite `x` and `y`, so the shape is invariant along them. -/
def shapeOf (bs : List Block) : List (String × Option String × Int) :=
  bs.map (fun b => (b.id, b.nextBlockId, b.height))

/-- The per-id `y` assignments performed by the downward walk of `moveBlock`,
read off the (walk-invariant) shape: one entry per processed block, in
processing order. -/
def downAssign (bs : List Block) : Nat → Option String → Int → List (String × Int)
  | _, none, _ => []
  | 0, some _, _ => []
  | fuel + 1, some i, y =>
    match getBlockById bs i with
    | none => []
    | some b => (i, y) :: downAssign bs fuel b.nextBlockId (y + b.height)

/-- The per-id `y` assignments performed by the upward walk of `moveBlock`:
the ancestor chain comes from `orig`, heights from `u`. -/
def upAssign (orig u : List Block) : Nat → Option String → Int → List (String × Int)
  | _, none, _ => []
  | 0, some _, _ => []
  | fuel + 1, some i, y =>
    match getBlockById u i with
    | none => []
    | some b =>
      (i, y - b.height) ::
        upAssign orig u fuel ((getBlockAbove orig i).map (fun a => a.id)) (y - b.height)

/-- Replay a list of `y` assignments, also setting `x := newX`, on the first
block with each id, in order. -/
def applyAssign (newX : Int) (u : List Block) (l : List (String × Int)) : List Block :=
  l.foldl (fun acc p => updateFirst acc p.1 (fun b => { b with x := newX, y := p.2 })) u

/-- The ids of `bid`'s chain as traversed by `moveBlock`: the ancestor walk
(nearest ancestor first), `bid` itself, then the descendant walk (a trailing
dangling id included). -/
def chainOf (bs : List Block) (bid : String) : List String :=
  (upAssign bs bs (bs.length + 1) (aboveStep bs (some bid)) 0).map Prod.fst
    ++ bid :: chainIds bs (bs.length + 1) (nextIdOf bs bid)

/-- Does the walk below `cur` sit contiguously, the first walked block's top
edge at `y` and each next block's top edge at the previous bottom edge? -/
def downContigB (bs : List Block) : Nat → Option String → Int → Bool
  | _, none, _ => true
  | 0, some _, _ => true
  | fuel + 1, some i, y =>
    match getBlockById bs i with
    | none => true
    | some b => decide (b.y = y) && downContigB bs fuel b.nextBlockId (y + b.height)

/-- Is every block of the walk below `cur` x-aligned at `x0`? -/
def downAlignedB (bs : List Block) : Nat → Option String → Int → Bool
  | _, none, _ => true
  | 0, some _, _ => true
  | fuel + 1, some i, x0 =>
    match getBlockById bs i with
    | none => true
    | some b => decide (b.x = x0) && downAlignedB bs fuel b.nextBlockId x0

/-- The stack ids a pointer-down over `bid` records: the grabbed block
followed by everything connected below it, read after the disconnect. -/
def sessionStack (bs : List Block) (bid : String) : List String :=
  bid :: getConnectedBlocksBelow (disconnectBlock bs bid) bid

/-- The state after pointer-move to `(px, py)`, pointer-down, and a further
pointer-move by `(dx, dy)`. -/
def dragScriptMid (s0 : CanvasState) (px py dx dy : Int) : CanvasState :=
  handleMouseMove (px + dx, py + dy) (handleMouseDown (handleMouseMove (px, py) s0))

/-- The full drag round trip: move, down, move by `(dx, dy)`, up. -/
def dragScript (s0 : CanvasState) (px py dx dy : Int) : CanvasState :=
  handleMouseUp (dragScriptMid s0 px py dx dy)

/-- A two-block chain with deliberately misaligned positions. -/
def w2p : Block :=
  { id := "p", x := 10, y := 7, width := 30, height := 20, color := "r", nextBlockId := some "q" }

/-- The second block of the misaligned chain. -/
def w2q : Block :=
  { id := "q", x := 99, y := 99, width := 30, height := 25, color := "g", nextBlockId := none }

/-- The misaligned two-block chain. -/
def w2bs : List Block := [w2p, w2q]

/-- Insertion-scenario block `A` at the top, linked to `C`. -/
def c3A : Block :=
  { id := "A", x := 0, y := 0, width := 200, height := 50, color := "red", nextBlockId := some "C" }

/-- Insertion-scenario block `C`, 50 units below `A`'s bottom edge. -/
def c3C : Block :=
  { id := "C", x := 0, y := 100, width := 200, height := 50, color := "green", nextBlockId := none }

/-- Insertion-scenario dragged block `B`, sitting in the gap. -/
def c3B : Block :=
  { id := "B", x := 0, y := 50, width := 200, height := 50, color := "blue", nextBlockId := none }

/-- The insertion-scenario drag session for `B`. -/
def c3d : DragState :=
  { blockId := "B", stackIds := ["B"], offsetX := 0, offsetY := 0 }

/-- The insertion-scenario state: chain `A → C` with `B` dragged into the gap. -/
def c3state : CanvasState :=
  { blocks := [c3A, c3C, c3B], dragState := some c3d, mousePosX := 0, mousePosY := 50,
    hoveredBlockId := none, activeCollisions := [] }

/-- Scenario chain head `A` for the mid-chain grab. -/
def c7A : Block :=
  { id := "A", x := 40, y := 0, width := 100, height := 30, color := "red", nextBlockId := some "B" }

/-- Scenario middle block `B`. -/
def c7B : Block :=
  { id := "B", x := 40, y := 30, width := 100, height := 40, color := "blue", nextBlockId := some "C" }

/-- Scenario tail block `C`. -/
def c7C : Block :=
  { id := "C", x := 40, y := 70, width := 100, height := 30, color := "green", nextBlockId := none }

/-- The mid-chain grab scenario state, pointer over `B`. -/
def c7state : CanvasState :=
  { blocks := [c7A, c7B, c7C], dragState := none, mousePosX := 50, mousePosY := 40,
    hoveredBlockId := none, activeCollisions := [] }

/-! ## Basic facts about the id sequence of the `nextBlockId` walks -/

theorem chainIds_nil_start (bs : List Block) (fuel : Nat) : chainIds bs fuel none = [] := by
  cases fuel <;> rfl

theorem chainIds_succ (bs : List Block) (fuel : Nat) (i : String) :
    chainIds bs (fuel + 1) (some i) = i :: chainIds bs fuel (nextIdOf bs i) := rfl

theorem idSeq_none (bs : List Block) (k : Nat) : idSeq bs none k = none := by
  induction k with
  | zero => rfl
  | succ n ih => rw [idSeq, ih]; rfl

theorem idSeq_add (bs : List Block) (start : Option String) (a b : Nat) :
    idSeq bs start (a + b) = idSeq bs (idSeq bs start a) b := by
  induction b with
  | zero => rfl
  | succ n ih => rw [← Nat.add_assoc, idSeq, ih, idSeq]

theorem idSeq_shift (bs : List Block) (start : Option String) (k : Nat) :
    idSeq bs start (k + 1) = idSeq bs (optNext bs start) k := by
  induction k with
  | zero => rfl
  | succ n ih => rw [idSeq, ih, idSeq]

theorem idSeq_none_mono (bs : List Block) (start : Option String) {m n : Nat}
    (h : idSeq bs start m = none) (hmn : m ≤ n) : idSeq bs start n = none := by
  have : n = m + (n - m) := by omega
  rw [this, idSeq_add, h, idSeq_none]

theorem idSeq_periodic (bs : List Block) (i : String) (p : Nat)
    (h : idSeq bs (some i) p = some i) (n : Nat) :
    idSeq bs (some i) (n * p) = some i := by
  induction n with
  | zero => rw [Nat.zero_mul]; rfl
  | succ m ih => rw [Nat.succ_mul, idSeq_add, ih, h]

theorem acyclic_of_terminates (bs : List Block)
    (h : ∀ b ∈ bs, ∃ m, idSeq bs (some b.id) m = none) : Acyclic bs := by
  intro b hb k hcyc
  obtain ⟨m, hm⟩ := h b hb
  have hper := idSeq_periodic bs b.id (k + 1) hcyc m
  have hnone : idSeq bs (some b.id) (m * (k + 1)) = none :=
    idSeq_none_mono bs (some b.id) hm (Nat.le_mul_of_pos_right m (Nat.succ_pos k))
  rw [hper] at hnone
  exact Option.noConfusion hnone

theorem chainIds_length_le (bs : List Block) :
    ∀ m (start : Option String), idSeq bs start m = none →
      ∀ fuel, (chainIds bs fuel start).length ≤ m := by
  intro m
  induction m with
  | zero =>
    intro start h fuel
    rw [show start = none from h, chainIds_nil_start]
    exact Nat.le_refl 0
  | succ n ih =>
    intro start h fuel
    cases start with
    | none => rw [chainIds_nil_start]; exact Nat.zero_le _
    | some i =>
      cases fuel with
      | zero => exact Nat.zero_le _
      | succ f =>
        rw [chainIds_succ]
        have h2 : idSeq bs (optNext bs (some i)) n = none := by
          rw [← idSeq_shift]; exact h
        exact Nat.succ_le_succ (ih (nextIdOf bs i) h2 f)

theorem getBlockById_mem {bs : List Block} {i : String} {b : Block}
    (h : getBlockById bs i = some b) : b ∈ bs :=
  List.mem_of_find?_eq_some h

theorem getBlockById_id {bs : List Block} {i : String} {b : Block}
    (h : getBlockById bs i = some b) : b.id = i := by
  have := List.find?_some h
  simpa using this

theorem idSeq_terminates (bs : List Block) (hacyc : Acyclic bs) (start : Option String) :
    idSeq bs start (bs.length + 1) = none := by
  by_contra hne
  have hall : ∀ t, t ≤ bs.length + 1 → idSeq bs start t ≠ none := by
    intro t ht hnone
    exact hne (idSeq_none_mono bs start hnone ht)
  have hfound : ∀ t, t ≤ bs.length → ∃ b ∈ bs, idSeq bs start t = some b.id := by
    intro t ht
    have h1 : idSeq bs start (t + 1) ≠ none := hall (t + 1) (by omega)
    rw [idSeq] at h1
    cases hcur : idSeq bs start t with
    | none => rw [hcur] at h1; exact absurd rfl h1
    | some i =>
      rw [hcur] at h1
      have h2 : nextIdOf bs i ≠ none := h1
      cases hf : getBlockById bs i with
      | none => rw [nextIdOf, hf] at h2; exact absurd rfl h2
      | some b =>
        exact ⟨b, getBlockById_mem hf, by rw [getBlockById_id hf]⟩
  by_cases hinj : Function.Injective (fun t : Fin (bs.length + 1) => (idSeq bs start t.val).getD "")
  · have hnd : (List.ofFn (fun t : Fin (bs.length + 1) => (idSeq bs start t.val).getD "")).Nodup :=
      List.nodup_ofFn.mpr hinj
    have hsub : (List.ofFn (fun t : Fin (bs.length + 1) => (idSeq bs start t.val).getD "")) ⊆
        bs.map (fun b => b.id) := by
      intro x hx
      rw [List.mem_ofFn] at hx
      obtain ⟨t, ht⟩ := hx
      obtain ⟨b, hb, hs⟩ := hfound t.val (by omega)
      rw [← ht]
      simp only [hs, Option.getD_some]
      exact List.mem_map.mpr ⟨b, hb, rfl⟩
    have hle := (List.subperm_of_subset hnd hsub).length_le
    rw [List.length_ofFn, List.length_map] at hle
    omega
  · rw [Function.not_injective_iff] at hinj
    obtain ⟨t1, t2, heq, hne12⟩ := hinj
    have key : ∀ (u v : Fin (bs.length + 1)), u.val < v.val →
        (idSeq bs start u.val).getD "" = (idSeq bs start v.val).getD "" → False := by
      intro u v hlt hgeq
      obtain ⟨bu, hbu, hsu⟩ := hfound u.val (by omega)
      obtain ⟨bv, hbv, hsv⟩ := hfound v.val (by omega)
      rw [hsu, hsv] at hgeq
      simp only [Option.getD_some] at hgeq
      have hper : idSeq bs (some bu.id) (v.val - u.val) = some bu.id := by
        have : idSeq bs start v.val = idSeq bs (idSeq bs start u.val) (v.val - u.val) := by
          rw [← idSeq_add]; congr 1; omega
        rw [hsv, hsu] at this
        rw [← this, hgeq]
      have hpos : v.val - u.val = (v.val - u.val - 1) + 1 := by omega
      rw [hpos] at hper
      exact hacyc bu hbu (v.val - u.val - 1) hper
    rcases Nat.lt_or_ge t1.val t2.val with h | h
    · exact key t1 t2 h heq
    · rcases Nat.lt_or_ge t2.val t1.val with h2 | h2
      · exact key t2 t1 h2 heq.symm
      · exact hne12 (Fin.ext (by omega))

/-! ## The snap test (claim C5) -/

/-- C5 counterexample: when the top-snap condition also holds, the snap test
returns `top` even though the claimed bottom-snap condition (vertical edge
distance within tolerance plus horizontal alignment) is satisfied, so the
claimed "if and only if" fails at this input. -/
theorem getSnapCollision_bottom_iff_cx :
    ¬ (getSnapCollision c5sq c5sq = some Side.bottom ↔
        (min (|c5sq.x - c5sq.x|) (|c5sq.x + c5sq.width - (c5sq.x + c5sq.width)|) ≤ 20
          ∧ |c5sq.y - (c5sq.y + c5sq.height)| ≤ 20)) := by
  decide

/-- C5 (amended): `getSnapCollision` returns `bottom` iff the horizontal
alignment holds, the top-snap condition fails, and the vertical edge distance
`|A.y - (B.y + B.height)|` is within tolerance; at a vertical edge distance of
exactly 20 (top condition failing) it returns `bottom`, at 21 it returns
nothing. -/
theorem getSnapCollision_bottom_iff :
    (∀ a t : Block, getSnapCollision a t = some Side.bottom ↔
        (min (|a.x - t.x|) (|a.x + a.width - (t.x + t.width)|) ≤ 20
          ∧ ¬ (|a.y + a.height - t.y| ≤ 20)
          ∧ |a.y - (t.y + t.height)| ≤ 20))
    ∧ getSnapCollision c5at20 c5tgt = some Side.bottom
    ∧ getSnapCollision c5at21 c5tgt = none := by
  refine ⟨fun a t => ?_, by decide, by decide⟩
  unfold getSnapCollision
  split_ifs with h1 h2 h3 <;> simp_all

/-! ## Divergence and termination of the chain traversals (claim C6) -/

/-- C6 counterexample: on a two-block cycle the `currentId` of the traversal
loops never becomes `undefined`, so the `while (currentId)` loops of
`getConnectedBlocksBelow`, `findLastConnectedBlock` and `updateStackPositions`
never reach their exit condition: the id list grows forever with the fuel
instead of stabilising. -/
theorem chain_traversal_diverges_on_cycle :
    (∀ k, idSeq cycBlocks (some "1") k ≠ none)
    ∧ (∀ fuel, (chainIds cycBlocks fuel (some "1")).length = fuel) := by
  have h12 : ∀ k, idSeq cycBlocks (some "1") k = some "1"
      ∨ idSeq cycBlocks (some "1") k = some "2" := by
    intro k
    induction k with
    | zero => exact Or.inl rfl
    | succ n ih =>
      rcases ih with h | h
      · right; rw [idSeq, h]; rfl
      · left; rw [idSeq, h]; rfl
  have hlen : ∀ fuel i, i = "1" ∨ i = "2" →
      (chainIds cycBlocks fuel (some i)).length = fuel := by
    intro fuel
    induction fuel with
    | zero => intro i _; rfl
    | succ n ih =>
      intro i hi
      rcases hi with rfl | rfl
      · rw [chainIds_succ, show nextIdOf cycBlocks "1" = some "2" from rfl,
          List.length_cons, ih "2" (Or.inr rfl)]
      · rw [chainIds_succ, show nextIdOf cycBlocks "2" = some "1" from rfl,
          List.length_cons, ih "1" (Or.inl rfl)]
  constructor
  · intro k h
    rcases h12 k with h2 | h2 <;> rw [h2] at h <;> exact Option.noConfusion h
  · intro fuel
    exact hlen fuel "1" (Or.inl rfl)

/-- C6 (amended): on an acyclic block list every `nextBlockId` walk reaches
its exit condition within `N + 1` steps (dangling ids included: the lookup
failure makes the next cursor `undefined`), and `getConnectedBlocksBelow`
collects at most `N` ids for `N` total blocks; but on a cyclic list the loops
never exit (see the counterexample), so termination holds only in the acyclic
case. -/
theorem chain_traversal_terminates (bs : List Block) (hacyc : Acyclic bs)
    (b : Block) (_hb : b ∈ bs) :
    idSeq bs (some b.id) (bs.length + 1) = none
    ∧ (getConnectedBlocksBelow bs b.id).length ≤ bs.length := by
  have h1 := idSeq_terminates bs hacyc (some b.id)
  refine ⟨h1, ?_⟩
  have h3 := idSeq_shift bs (some b.id) bs.length
  rw [h3] at h1
  unfold getConnectedBlocksBelow
  exact chainIds_length_le bs bs.length _ h1 _

/-- Witness for the amended C6 theorem at a concrete dangling chain. -/
theorem chain_traversal_terminates_witness :
    Acyclic wDang ∧ (idSeq wDang (some "a") (wDang.length + 1) = none
      ∧ (getConnectedBlocksBelow wDang "a").length ≤ wDang.length) := by
  have ha : Acyclic wDang := by
    apply acyclic_of_terminates
    intro b hb
    simp only [wDang, List.mem_cons, List.not_mem_nil, or_false] at hb
    rcases hb with rfl | rfl
    · exact ⟨3, by decide⟩
    · exact ⟨2, by decide⟩
  exact ⟨ha, chain_traversal_terminates wDang ha wDangA (by decide)⟩

/-! ## Pointer-up always clears the session (claim C8) -/

/-- C8: pointer-up with no active session leaves the state unchanged; with an
active session (stale or not, snap or no snap) it always ends with the drag
session cleared and the collision records emptied. -/
theorem handleMouseUp_terminal (s : CanvasState) :
    (handleMouseUp s).dragState = none
    ∧ (s.dragState = none → handleMouseUp s = s)
    ∧ (s.dragState ≠ none → (handleMouseUp s).activeCollisions = []) := by
  cases hd : s.dragState with
  | none =>
    refine ⟨?_, fun _ => ?_, fun h => absurd rfl h⟩ <;> simp only [handleMouseUp, hd]
  | some d =>
    cases hsb : stackBlocksOf s.blocks d.stackIds with
    | nil =>
      refine ⟨?_, fun h => Option.noConfusion h, fun _ => ?_⟩ <;>
        simp only [handleMouseUp, hd, hsb]
    | cons first rest =>
      refine ⟨?_, fun h => Option.noConfusion h, fun _ => ?_⟩ <;>
        simp only [handleMouseUp, hd, hsb]

/-- Witness for C8 at a concrete stale session. -/
theorem handleMouseUp_terminal_witness :
    (handleMouseUp w8state).dragState = none
    ∧ (handleMouseUp w8state).activeCollisions = [] :=
  ⟨(handleMouseUp_terminal w8state).1,
   (handleMouseUp_terminal w8state).2.2 (by decide)⟩

/-! ## `disconnectBlock` clears every in-edge (claim C10) -/

theorem disconnectBlock_noop (bs : List Block) (i : String)
    (h : ∀ b ∈ bs, b.nextBlockId ≠ some i) : disconnectBlock bs i = bs := by
  unfold disconnectBlock
  have hcong : ∀ b ∈ bs,
      (if b.nextBlockId == some i then { b with nextBlockId := none } else b) = id b := by
    intro b hb
    simp [h b hb]
  rw [List.map_congr_left hcong, List.map_id]

/-- C10: `disconnectBlock` clears `nextBlockId` on every block pointing at the
given id (even several at once), changes no other field of any block, and is
the identity when no block points at the id. -/
theorem disconnectBlock_spec (bs : List Block) (i : String) :
    (∀ b ∈ disconnectBlock bs i, b.nextBlockId ≠ some i)
    ∧ (disconnectBlock bs i).length = bs.length
    ∧ (∀ j : Nat, ∀ b b' : Block, bs[j]? = some b → (disconnectBlock bs i)[j]? = some b' →
        b'.id = b.id ∧ b'.x = b.x ∧ b'.y = b.y ∧ b'.width = b.width ∧
        b'.height = b.height ∧ b'.color = b.color ∧
        (b.nextBlockId ≠ some i → b'.nextBlockId = b.nextBlockId))
    ∧ ((∀ b ∈ bs, b.nextBlockId ≠ some i) → disconnectBlock bs i = bs) := by
  refine ⟨?_, by simp [disconnectBlock], ?_, disconnectBlock_noop bs i⟩
  · intro b hb
    unfold disconnectBlock at hb
    rcases List.mem_map.mp hb with ⟨a, _, rfl⟩
    by_cases h : a.nextBlockId = some i
    · simp [h]
    · simp [h]
  · intro j b b' hb hb'
    unfold disconnectBlock at hb'
    rw [List.getElem?_map, hb] at hb'
    have hfb : (if b.nextBlockId == some i then { b with nextBlockId := none } else b) = b' := by
      simpa using hb'
    subst hfb
    by_cases h : b.nextBlockId = some i
    · simp [h]
    · simp [h]

/-- Witness for C10: the no-op hypothesis discharged at a concrete list, plus
the wholesale repair on a list with two in-edges to `"9"`. -/
theorem disconnectBlock_spec_witness :
    ((∀ b ∈ w10nop, b.nextBlockId ≠ some "9") ∧ disconnectBlock w10nop "9" = w10nop)
    ∧ (∀ b ∈ disconnectBlock w10bs "9", b.nextBlockId ≠ some "9") :=
  ⟨⟨by decide, (disconnectBlock_spec w10nop "9").2.2.2 (by decide)⟩,
   (disconnectBlock_spec w10bs "9").1⟩

/-! ## Hit-test order on pointer-down (claim C9) -/

theorem find?_first_index {α : Type} (p : α → Bool) :
    ∀ (l : List α) (b : α), l.find? p = some b →
      ∃ k : Nat, l[k]? = some b ∧ ∀ j : Nat, j < k → ∀ a, l[j]? = some a → p a = false := by
  intro l
  induction l with
  | nil => intro b h; exact absurd h (by simp)
  | cons x xs ih =>
    intro b h
    by_cases hx : p x
    · rw [List.find?_cons_of_pos _ hx] at h
      refine ⟨0, by simpa using h, ?_⟩
      intro j hj
      exact absurd hj (Nat.not_lt_zero j)
    · rw [List.find?_cons_of_neg _ hx] at h
      obtain ⟨k, hk, hlt⟩ := ih b h
      refine ⟨k + 1, by simpa using hk, ?_⟩
      intro j hj a ha
      cases j with
      | zero =>
        have hax : a = x := by simpa using ha.symm
        subst hax
        cases hpx : p a with
        | true => exact absurd hpx hx
        | false => rfl
      | succ j2 => exact hlt j2 (by omega) a (by simpa using ha)

/-- C9 counterexample: with two fully overlapping blocks and the pointer
inside both, pointer-down grabs block `"1"` — the first in list order, which
`paintOrder` draws first, i.e. the one painted underneath — even though the
later-drawn block `"2"` also contains the pointer. -/
theorem handleMouseDown_overlap_cx :
    (handleMouseDown cx9).dragState =
      some { blockId := "1", stackIds := ["1"], offsetX := 10, offsetY := 10 }
    ∧ paintOrder cx9 = [cx9b1, cx9b2]
    ∧ isPointInBlock cx9.mousePosX cx9.mousePosY cx9b2 = true
    ∧ cx9b2.id ≠ "1" := by
  refine ⟨by decide, rfl, by decide, by decide⟩

/-- C9 (amended): pointer-down grabs the first block in list order containing
the pointer — the earliest-drawn one, painted beneath any later overlapping
block — disconnects it and starts the session; when no block contains the
pointer, no session is created and the collision records are cleared. -/
theorem handleMouseDown_hit_order (s : CanvasState) :
    (s.blocks.find? (fun b => isPointInBlock s.mousePosX s.mousePosY b) = none →
      handleMouseDown s = { s with activeCollisions := [] })
    ∧ (∀ c, s.blocks.find? (fun b => isPointInBlock s.mousePosX s.mousePosY b) = some c →
        isPointInBlock s.mousePosX s.mousePosY c = true
        ∧ (∃ k : Nat, s.blocks[k]? = some c ∧ ∀ j : Nat, j < k → ∀ a, s.blocks[j]? = some a →
            isPointInBlock s.mousePosX s.mousePosY a = false)
        ∧ (handleMouseDown s).dragState =
            some { blockId := c.id,
                   stackIds := c.id :: getConnectedBlocksBelow (disconnectBlock s.blocks c.id) c.id,
                   offsetX := s.mousePosX - c.x, offsetY := s.mousePosY - c.y }
        ∧ (handleMouseDown s).blocks = disconnectBlock s.blocks c.id
        ∧ (handleMouseDown s).activeCollisions = detectAllCollisions s.blocks) := by
  constructor
  · intro h
    simp only [handleMouseDown, h]
  · intro c hc
    refine ⟨List.find?_some hc, find?_first_index _ s.blocks c hc, ?_, ?_, ?_⟩ <;>
      simp only [handleMouseDown, hc]

/-- Witness for the amended C9 theorem at the overlapping-blocks state. -/
theorem handleMouseDown_hit_order_witness :
    (cx9.blocks.find? (fun b => isPointInBlock cx9.mousePosX cx9.mousePosY b) = some cx9b1)
    ∧ (handleMouseDown cx9).blocks = disconnectBlock cx9.blocks cx9b1.id :=
  ⟨by decide, ((handleMouseDown_hit_order cx9).2 cx9b1 (by decide)).2.2.2.1⟩

/-! ## Structural preservation: position updates never change links -/

theorem structOf_cons (b : Block) (rest : List Block) :
    structOf (b :: rest) = (b.id, b.nextBlockId) :: structOf rest := rfl

theorem structOf_updateFirst (i : String) (f : Block → Block)
    (hf : ∀ b : Block, (f b).id = b.id ∧ (f b).nextBlockId = b.nextBlockId) :
    ∀ bs : List Block, structOf (updateFirst bs i f) = structOf bs := by
  intro bs
  induction bs with
  | nil => rfl
  | cons b rest ih =>
    rw [updateFirst]
    by_cases h : (b.id == i) = true
    · rw [if_pos h, structOf_cons, structOf_cons, (hf b).1, (hf b).2]
    · rw [if_neg h, structOf_cons, structOf_cons, ih]

theorem moveUpLoop_none (orig : List Block) (nx : Int) (fuel : Nat) (u : List Block) (y : Int) :
    moveUpLoop orig nx fuel u y none = u := by
  cases fuel <;> rfl

theorem moveDownLoop_none (nx : Int) (fuel : Nat) (u : List Block) (y : Int) :
    moveDownLoop nx fuel u y none = u := by
  cases fuel <;> rfl

theorem stackPosLoop_none (fuel : Nat) (u : List Block) (y : Int) :
    stackPosLoop fuel u y none = u := by
  cases fuel <;> rfl

theorem structOf_moveUpLoop (orig : List Block) (nx : Int) :
    ∀ (fuel : Nat) (u : List Block) (y : Int) (cur : Option String),
      structOf (moveUpLoop orig nx fuel u y cur) = structOf u := by
  intro fuel
  induction fuel with
  | zero =>
    intro u y cur
    cases cur <;> rfl
  | succ f ih =>
    intro u y cur
    cases cur with
    | none => rw [moveUpLoop_none]
    | some aid =>
      rw [moveUpLoop]
      cases hf : getBlockById u aid with
      | none => rfl
      | some blk =>
        rw [ih]
        apply structOf_updateFirst
        intro b
        exact ⟨rfl, rfl⟩

theorem structOf_moveDownLoop (nx : Int) :
    ∀ (fuel : Nat) (u : List Block) (y : Int) (cur : Option String),
      structOf (moveDownLoop nx fuel u y cur) = structOf u := by
  intro fuel
  induction fuel with
  | zero =>
    intro u y cur
    cases cur <;> rfl
  | succ f ih =>
    intro u y cur
    cases cur with
    | none => rw [moveDownLoop_none]
    | some bid =>
      rw [moveDownLoop]
      cases hf : getBlockById u bid with
      | none => rfl
      | some blk =>
        rw [ih]
        apply structOf_updateFirst
        intro b
        exact ⟨rfl, rfl⟩

theorem structOf_stackPosLoop :
    ∀ (fuel : Nat) (u : List Block) (y : Int) (cur : Option String),
      structOf (stackPosLoop fuel u y cur) = structOf u := by
  intro fuel
  induction fuel with
  | zero =>
    intro u y cur
    cases cur <;> rfl
  | succ f ih =>
    intro u y cur
    cases cur with
    | none => rw [stackPosLoop_none]
    | some i =>
      rw [stackPosLoop]
      cases hf : getBlockById u i with
      | none => rfl
      | some b =>
        rw [ih]
        apply structOf_updateFirst
        intro bb
        exact ⟨rfl, rfl⟩

theorem structOf_moveBlock (bs : List Block) (blockId : String) (nx ny : Int) :
    structOf (moveBlock bs blockId nx ny) = structOf bs := by
  rw [moveBlock]
  cases hf : getBlockById bs blockId with
  | none => rfl
  | some blk =>
    rw [structOf_moveDownLoop, structOf_moveUpLoop]
    apply structOf_updateFirst
    intro b
    exact ⟨rfl, rfl⟩

theorem structOf_updateStackPositions (bs : List Block) (i : String) (y : Int) :
    structOf (updateStackPositions bs i y) = structOf bs := by
  rw [updateStackPositions, structOf_stackPosLoop]

/-! ## The invariant is determined by the structural projection -/

theorem find?_id_structOf (bs : List Block) (i : String) :
    (structOf bs).find? (fun q => q.1 == i) =
      (getBlockById bs i).map (fun b => (b.id, b.nextBlockId)) := by
  induction bs with
  | nil => rfl
  | cons b rest ih =>
    rw [structOf_cons, getBlockById, List.find?_cons]
    by_cases h : (b.id == i) = true
    · rw [List.find?_cons]
      simp only [h]
      rfl
    · rw [List.find?_cons]
      simp only [Bool.not_eq_true] at h
      simp only [h]
      exact ih

theorem nextIdOf_structOf (bs : List Block) (i : String) :
    nextIdOf bs i = ((structOf bs).find? (fun q => q.1 == i)).bind (fun q => q.2) := by
  rw [find?_id_structOf, nextIdOf]
  cases getBlockById bs i <;> rfl

theorem nextIdOf_congr {bs1 bs2 : List Block} (h : structOf bs1 = structOf bs2) (i : String) :
    nextIdOf bs1 i = nextIdOf bs2 i := by
  rw [nextIdOf_structOf, nextIdOf_structOf, h]

theorem optNext_congr {bs1 bs2 : List Block} (h : structOf bs1 = structOf bs2)
    (cur : Option String) : optNext bs1 cur = optNext bs2 cur := by
  cases cur with
  | none => rfl
  | some i => exact nextIdOf_congr h i

theorem idSeq_congr {bs1 bs2 : List Block} (h : structOf bs1 = structOf bs2)
    (start : Option String) (k : Nat) : idSeq bs1 start k = idSeq bs2 start k := by
  induction k with
  | zero => rfl
  | succ n ih => rw [idSeq, idSeq, ih, optNext_congr h]

theorem inDeg_structOf (bs : List Block) (i : String) :
    inDeg bs i = (structOf bs).countP (fun q => q.2 == some i) := by
  rw [inDeg, structOf, List.countP_map]
  rfl

theorem forest_congr {bs1 bs2 : List Block} (h : structOf bs1 = structOf bs2)
    (hf : Forest bs1) : Forest bs2 := by
  obtain ⟨hdeg, hacyc⟩ := hf
  constructor
  · intro b hb
    have hmem : (b.id, b.nextBlockId) ∈ structOf bs1 := by
      rw [h]
      exact List.mem_map.mpr ⟨b, hb, rfl⟩
    obtain ⟨b1, hb1, hb1e⟩ := List.mem_map.mp hmem
    have hid : b1.id = b.id := congrArg Prod.fst hb1e
    rw [inDeg_structOf, ← h, ← inDeg_structOf, ← hid]
    exact hdeg b1 hb1
  · intro b hb k hk
    have hmem : (b.id, b.nextBlockId) ∈ structOf bs1 := by
      rw [h]
      exact List.mem_map.mpr ⟨b, hb, rfl⟩
    obtain ⟨b1, hb1, hb1e⟩ := List.mem_map.mp hmem
    have hid : b1.id = b.id := congrArg Prod.fst hb1e
    rw [← idSeq_congr h] at hk
    rw [← hid] at hk
    exact hacyc b1 hb1 k hk

/-! ## Disconnecting only removes edges, so it preserves the forest invariant -/

theorem find?_id_map {bs : List Block} {f : Block → Block}
    (hf : ∀ b : Block, (f b).id = b.id) (i : String) :
    (bs.map f).find? (fun b => b.id == i) =
      (bs.find? (fun b => b.id == i)).map f := by
  induction bs with
  | nil => rfl
  | cons b rest ih =>
    simp only [List.map_cons, List.find?_cons, hf b]
    by_cases h : (b.id == i) = true
    · simp [h]
    · simp [h, ih]

theorem disconnect_nextIdOf {bs : List Block} {i j k : String}
    (h : nextIdOf (disconnectBlock bs i) j = some k) : nextIdOf bs j = some k := by
  rw [nextIdOf, disconnectBlock, getBlockById,
    find?_id_map (fun b => by by_cases hb : (b.nextBlockId == some i) = true <;> simp [hb])] at h
  rw [nextIdOf, getBlockById]
  cases hfd : bs.find? (fun b => b.id == j) with
  | none => rw [hfd] at h; simp at h
  | some b =>
    rw [hfd] at h
    by_cases hb : b.nextBlockId = some i
    · simp [hb] at h
    · simp [hb] at h
      simpa using h

theorem disconnect_idSeq {bs : List Block} {i : String} (start : Option String) :
    ∀ (t : Nat) (j : String), idSeq (disconnectBlock bs i) start t = some j →
      idSeq bs start t = some j := by
  intro t
  induction t with
  | zero => intro j h; exact h
  | succ n ih =>
    intro j h
    rw [idSeq] at h ⊢
    cases hcur : idSeq (disconnectBlock bs i) start n with
    | none => rw [hcur] at h; exact absurd h (by simp [optNext])
    | some j2 =>
      rw [hcur] at h
      rw [ih j2 hcur]
      exact disconnect_nextIdOf h

theorem disconnect_forest {bs : List Block} (i : String) (hf : Forest bs) :
    Forest (disconnectBlock bs i) := by
  obtain ⟨hdeg, hacyc⟩ := hf
  constructor
  · intro b hb
    obtain ⟨a, ha, hae⟩ := List.mem_map.mp hb
    have hid : b.id = a.id := by
      rw [← hae]
      by_cases hc : (a.nextBlockId == some i) = true <;> simp [hc]
    have hle : inDeg (disconnectBlock bs i) b.id ≤ inDeg bs b.id := by
      rw [inDeg, inDeg, disconnectBlock, List.countP_map]
      apply List.countP_mono_left
      intro c _ hc
      by_cases hci : (c.nextBlockId == some i) = true
      · simp only [Function.comp] at hc
        rw [if_pos hci] at hc
        exact absurd hc (by simp)
      · simp only [Function.comp] at hc
        rw [if_neg hci] at hc
        exact hc
    calc inDeg (disconnectBlock bs i) b.id ≤ inDeg bs b.id := hle
      _ = inDeg bs a.id := by rw [hid]
      _ ≤ 1 := hdeg a ha
  · intro b hb k hk
    obtain ⟨a, ha, hae⟩ := List.mem_map.mp hb
    have hid : b.id = a.id := by
      rw [← hae]
      by_cases hc : (a.nextBlockId == some i) = true <;> simp [hc]
    have h2 := @disconnect_idSeq bs i (some b.id) (k + 1) b.id hk
    rw [hid] at h2
    exact hacyc a ha k h2

/-! ## The forest invariant under the public pointer operations (claim C1) -/

/-- C1 counterexample: the seed state satisfies the forest invariant, but the
eight public pointer events of `cx1Events` (snap `2` under `1`, then drag `3`
just above `2`) leave block `"2"` with two in-edges: the append-below branch
of pointer-up connects the dragged tail to a block that still has a
predecessor, so the invariant is not preserved. -/
theorem forest_not_preserved_cx :
    Forest seedState.blocks ∧ ¬ Forest (runEvents seedState cx1Events).blocks := by
  constructor
  · constructor
    · unfold InDegLe1
      decide
    · apply acyclic_of_terminates
      intro b hb
      exact ⟨1, by
        simp only [seedState, seedBlocks, List.mem_cons, List.not_mem_nil, or_false] at hb
        rcases hb with rfl | rfl | rfl | rfl | rfl <;> decide⟩
  · intro h
    exact absurd (h.1 cx1blk2 (by decide)) (by decide)

/-- C1 (amended): pointer-down and pointer-move do preserve the forest
invariant — pointer-down only removes `nextBlockId` edges (via
`disconnectBlock`) and pointer-move only rewrites positions — but pointer-up
does not (see the counterexample: an append-below snap may connect the dragged
tail to a block that still has a predecessor), so the invariant survives
arbitrary sequences of down/move events only. -/
theorem pointer_down_move_preserve_forest (s : CanvasState) (pos : Int × Int)
    (h : Forest s.blocks) :
    Forest (handleMouseDown s).blocks ∧ Forest (handleMouseMove pos s).blocks := by
  constructor
  · cases hc : s.blocks.find? (fun b => isPointInBlock s.mousePosX s.mousePosY b) with
    | none => simpa only [handleMouseDown, hc] using h
    | some c =>
      simp only [handleMouseDown, hc]
      exact disconnect_forest c.id h
  · cases hd : s.dragState with
    | none => simpa only [handleMouseMove, hd] using h
    | some d =>
      simp only [handleMouseMove, hd]
      exact forest_congr (structOf_moveBlock s.blocks d.blockId _ _).symm h

/-- Witness for the amended C1 theorem at the seed state. -/
theorem pointer_down_move_preserve_forest_witness :
    Forest seedState.blocks ∧ Forest (handleMouseDown seedState).blocks := by
  have hF : Forest seedState.blocks := by
    constructor
    · unfold InDegLe1
      decide
    · apply acyclic_of_terminates
      intro b hb
      exact ⟨1, by
        simp only [seedState, seedBlocks, List.mem_cons, List.not_mem_nil, or_false] at hb
        rcases hb with rfl | rfl | rfl | rfl | rfl <;> decide⟩
  exact ⟨hF, (pointer_down_move_preserve_forest seedState (0, 0) hF).1⟩

/-! ## The walks of `moveBlock` as assignment lists -/

theorem downAssign_none (bs : List Block) (fuel : Nat) (y : Int) :
    downAssign bs fuel none y = [] := by
  cases fuel <;> rfl

theorem upAssign_none (orig u : List Block) (fuel : Nat) (y : Int) :
    upAssign orig u fuel none y = [] := by
  cases fuel <;> rfl

theorem shapeOf_cons (b : Block) (rest : List Block) :
    shapeOf (b :: rest) = (b.id, b.nextBlockId, b.height) :: shapeOf rest := rfl

theorem shapeOf_updateFirst (i : String) (f : Block → Block)
    (hf : ∀ b : Block, (f b).id = b.id ∧ (f b).nextBlockId = b.nextBlockId
      ∧ (f b).height = b.height) :
    ∀ bs : List Block, shapeOf (updateFirst bs i f) = shapeOf bs := by
  intro bs
  induction bs with
  | nil => rfl
  | cons b rest ih =>
    rw [updateFirst]
    by_cases h : (b.id == i) = true
    · rw [if_pos h, shapeOf_cons, shapeOf_cons, (hf b).1, (hf b).2.1, (hf b).2.2]
    · rw [if_neg h, shapeOf_cons, shapeOf_cons, ih]

theorem find?_id_shapeOf (bs : List Block) (i : String) :
    (shapeOf bs).find? (fun q => q.1 == i) =
      (getBlockById bs i).map (fun b => (b.id, b.nextBlockId, b.height)) := by
  induction bs with
  | nil => rfl
  | cons b rest ih =>
    rw [shapeOf_cons, getBlockById, List.find?_cons, List.find?_cons]
    by_cases h : (b.id == i) = true
    · simp only [h]
      rfl
    · rw [Bool.not_eq_true] at h
      simp only [h]
      exact ih

theorem getBlockById_shape_congr {u1 u2 : List Block} (h : shapeOf u1 = shapeOf u2)
    (i : String) :
    (getBlockById u1 i).map (fun b => (b.id, b.nextBlockId, b.height)) =
      (getBlockById u2 i).map (fun b => (b.id, b.nextBlockId, b.height)) := by
  rw [← find?_id_shapeOf, ← find?_id_shapeOf, h]

theorem downAssign_congr {u1 u2 : List Block} (h : shapeOf u1 = shapeOf u2) :
    ∀ (fuel : Nat) (cur : Option String) (y : Int),
      downAssign u1 fuel cur y = downAssign u2 fuel cur y := by
  intro fuel
  induction fuel with
  | zero =>
    intro cur y
    cases cur <;> rfl
  | succ f ih =>
    intro cur y
    cases cur with
    | none => rw [downAssign_none, downAssign_none]
    | some i =>
      have hmap := getBlockById_shape_congr h i
      rw [downAssign]
      cases h1 : getBlockById u1 i with
      | none =>
        rw [h1] at hmap
        cases h2 : getBlockById u2 i with
        | none => rw [downAssign, h2]
        | some b2 => rw [h2] at hmap; exact absurd hmap (by simp)
      | some b1 =>
        rw [h1] at hmap
        cases h2 : getBlockById u2 i with
        | none => rw [h2] at hmap; exact absurd hmap (by simp)
        | some b2 =>
          rw [h2] at hmap
          simp only [Option.map_some', Option.some.injEq, Prod.mk.injEq] at hmap
          simp only [hmap.2.1, hmap.2.2, ih]
          simp only [downAssign, h2]

theorem upAssign_congr (orig : List Block) {u1 u2 : List Block}
    (h : shapeOf u1 = shapeOf u2) :
    ∀ (fuel : Nat) (cur : Option String) (y : Int),
      upAssign orig u1 fuel cur y = upAssign orig u2 fuel cur y := by
  intro fuel
  induction fuel with
  | zero =>
    intro cur y
    cases cur <;> rfl
  | succ f ih =>
    intro cur y
    cases cur with
    | none => rw [upAssign_none, upAssign_none]
    | some i =>
      have hmap := getBlockById_shape_congr h i
      rw [upAssign]
      cases h1 : getBlockById u1 i with
      | none =>
        rw [h1] at hmap
        cases h2 : getBlockById u2 i with
        | none => rw [upAssign, h2]
        | some b2 => rw [h2] at hmap; exact absurd hmap (by simp)
      | some b1 =>
        rw [h1] at hmap
        cases h2 : getBlockById u2 i with
        | none => rw [h2] at hmap; exact absurd hmap (by simp)
        | some b2 =>
          rw [h2] at hmap
          simp only [Option.map_some', Option.some.injEq, Prod.mk.injEq] at hmap
          simp only [hmap.2.2, ih]
          simp only [upAssign, h2]

theorem applyAssign_nil (nx : Int) (u : List Block) : applyAssign nx u [] = u := rfl

theorem applyAssign_cons (nx : Int) (u : List Block) (i : String) (y : Int)
    (l : List (String × Int)) :
    applyAssign nx u ((i, y) :: l) =
      applyAssign nx (updateFirst u i (fun b => { b with x := nx, y := y })) l := rfl

theorem shapeOf_applyAssign (nx : Int) :
    ∀ (l : List (String × Int)) (u : List Block),
      shapeOf (applyAssign nx u l) = shapeOf u := by
  intro l
  induction l with
  | nil => intro u; rfl
  | cons p rest ih =>
    intro u
    obtain ⟨i, y⟩ := p
    rw [applyAssign_cons, ih]
    apply shapeOf_updateFirst
    intro b
    exact ⟨rfl, rfl, rfl⟩

theorem moveDownLoop_eq (nx : Int) :
    ∀ (fuel : Nat) (u : List Block) (y : Int) (cur : Option String),
      moveDownLoop nx fuel u y cur = applyAssign nx u (downAssign u fuel cur y) := by
  intro fuel
  induction fuel with
  | zero =>
    intro u y cur
    cases cur <;> rfl
  | succ f ih =>
    intro u y cur
    cases cur with
    | none => rw [moveDownLoop_none, downAssign_none, applyAssign_nil]
    | some i =>
      cases hf : getBlockById u i with
      | none => simp only [moveDownLoop, downAssign, hf, applyAssign_nil]
      | some b =>
        simp only [moveDownLoop, downAssign, hf]
        rw [ih, applyAssign_cons]
        congr 1
        apply downAssign_congr
        apply shapeOf_updateFirst
        intro bb
        exact ⟨rfl, rfl, rfl⟩

theorem moveUpLoop_eq (orig : List Block) (nx : Int) :
    ∀ (fuel : Nat) (u : List Block) (y : Int) (cur : Option String),
      moveUpLoop orig nx fuel u y cur = applyAssign nx u (upAssign orig u fuel cur y) := by
  intro fuel
  induction fuel with
  | zero =>
    intro u y cur
    cases cur <;> rfl
  | succ f ih =>
    intro u y cur
    cases cur with
    | none => rw [moveUpLoop_none, upAssign_none, applyAssign_nil]
    | some i =>
      cases hf : getBlockById u i with
      | none => simp only [moveUpLoop, upAssign, hf, applyAssign_nil]
      | some b =>
        simp only [moveUpLoop, upAssign, hf]
        rw [ih, applyAssign_cons]
        congr 1
        apply upAssign_congr
        apply shapeOf_updateFirst
        intro bb
        exact ⟨rfl, rfl, rfl⟩

theorem moveBlock_eq (bs : List Block) (bid : String) (nx ny : Int) (b0 : Block)
    (hf : getBlockById bs bid = some b0) :
    moveBlock bs bid nx ny =
      applyAssign nx
        (applyAssign nx (updateFirst bs bid (fun b => { b with x := nx, y := ny }))
          (upAssign bs bs (bs.length + 1) (aboveStep bs (some bid)) ny))
        (downAssign bs (bs.length + 1) b0.nextBlockId (ny + b0.height)) := by
  have hsh0 : shapeOf (updateFirst bs bid (fun b => { b with x := nx, y := ny })) = shapeOf bs := by
    apply shapeOf_updateFirst
    intro b
    exact ⟨rfl, rfl, rfl⟩
  simp only [moveBlock, hf]
  rw [moveUpLoop_eq, moveDownLoop_eq]
  rw [upAssign_congr bs hsh0]
  congr 1
  apply downAssign_congr
  rw [shapeOf_applyAssign]
  exact hsh0

/-! ## Lookups through replayed assignments -/

theorem getBlockById_updateFirst_self (u : List Block) (i : String) (f : Block → Block)
    (hf : ∀ b : Block, (f b).id = b.id) :
    getBlockById (updateFirst u i f) i = (getBlockById u i).map f := by
  induction u with
  | nil => rfl
  | cons b rest ih =>
    rw [updateFirst]
    by_cases h : (b.id == i) = true
    · rw [if_pos h, getBlockById, getBlockById, List.find?_cons, List.find?_cons, hf b]
      simp only [h]
      rfl
    · rw [if_neg h, getBlockById, getBlockById, List.find?_cons, List.find?_cons]
      rw [Bool.not_eq_true] at h
      simp only [h]
      exact ih

theorem getBlockById_updateFirst_ne (u : List Block) (i j : String) (f : Block → Block)
    (hf : ∀ b : Block, (f b).id = b.id) (hne : j ≠ i) :
    getBlockById (updateFirst u i f) j = getBlockById u j := by
  induction u with
  | nil => rfl
  | cons b rest ih =>
    rw [updateFirst]
    by_cases h : (b.id == i) = true
    · have hbj : (b.id == j) = false := by
        have hbi : b.id = i := by simpa using h
        rw [hbi]
        simp only [beq_eq_false_iff_ne]
        exact Ne.symm hne
      rw [if_pos h, getBlockById, getBlockById, List.find?_cons, List.find?_cons, hf b]
      simp only [hbj]
    · rw [if_neg h, getBlockById, getBlockById, List.find?_cons, List.find?_cons]
      by_cases hbj : (b.id == j) = true
      · simp only [hbj]
      · rw [Bool.not_eq_true] at hbj
        simp only [hbj]
        exact ih

theorem applyAssign_not_mem (nx : Int) :
    ∀ (l : List (String × Int)) (u : List Block) (i : String),
      i ∉ l.map Prod.fst →
      getBlockById (applyAssign nx u l) i = getBlockById u i := by
  intro l
  induction l with
  | nil => intro u i _; rfl
  | cons p rest ih =>
    intro u i hni
    obtain ⟨j, y⟩ := p
    rw [List.map_cons, List.mem_cons, not_or] at hni
    rw [applyAssign_cons, ih _ _ hni.2]
    exact getBlockById_updateFirst_ne u j i _ (fun b => rfl) hni.1

theorem applyAssign_mem (nx : Int) :
    ∀ (l : List (String × Int)) (u : List Block) (i : String) (yi : Int),
      (l.map Prod.fst).Nodup → (i, yi) ∈ l →
      getBlockById (applyAssign nx u l) i =
        (getBlockById u i).map (fun b => { b with x := nx, y := yi }) := by
  intro l
  induction l with
  | nil => intro u i yi _ hm; exact absurd hm (List.not_mem_nil _)
  | cons p rest ih =>
    intro u i yi hnd hm
    obtain ⟨j, y⟩ := p
    rw [List.map_cons, List.nodup_cons] at hnd
    rw [List.mem_cons] at hm
    rcases hm with hm | hm
    · injection hm with hm1 hm2
      subst hm1
      subst hm2
      rw [applyAssign_cons, applyAssign_not_mem nx rest _ _ hnd.1]
      exact getBlockById_updateFirst_self u i _ (fun b => rfl)
    · have hij : i ≠ j := by
        intro hij
        subst hij
        exact hnd.1 (List.mem_map.mpr ⟨(i, yi), hm, rfl⟩)
      rw [applyAssign_cons, ih _ _ _ hnd.2 hm]
      rw [getBlockById_updateFirst_ne u j i (fun b => { b with x := nx, y := y })
        (fun b => rfl) hij]

/-! ## Membership and distinctness facts for the walk assignments -/

theorem downAssign_mem (bs : List Block) :
    ∀ (fuel : Nat) (cur : Option String) (y : Int) (i : String) (yi : Int),
      (i, yi) ∈ downAssign bs fuel cur y →
      (∃ b, getBlockById bs i = some b) ∧ ∃ t, idSeq bs cur t = some i := by
  intro fuel
  induction fuel with
  | zero =>
    intro cur y i yi hm
    cases cur with
    | none => rw [downAssign_none] at hm; exact absurd hm (List.not_mem_nil _)
    | some j => exact absurd hm (List.not_mem_nil _)
  | succ f ih =>
    intro cur y i yi hm
    cases cur with
    | none => rw [downAssign_none] at hm; exact absurd hm (List.not_mem_nil _)
    | some j =>
      rw [downAssign] at hm
      cases hf : getBlockById bs j with
      | none => rw [hf] at hm; exact absurd hm (List.not_mem_nil _)
      | some b =>
        rw [hf] at hm
        simp only [List.mem_cons] at hm
        rcases hm with hm | hm
        · injection hm with hm1 hm2
          subst hm1
          exact ⟨⟨b, hf⟩, 0, rfl⟩
        · obtain ⟨hfound, t, ht⟩ := ih b.nextBlockId (y + b.height) i yi hm
          refine ⟨hfound, t + 1, ?_⟩
          rw [idSeq_shift]
          have : optNext bs (some j) = b.nextBlockId := by
            rw [optNext.eq_def]
            simp only [nextIdOf, hf, Option.bind_eq_bind, Option.some_bind]
          rw [this]
          exact ht

theorem downAssign_nodup (bs : List Block) (hacyc : Acyclic bs) :
    ∀ (fuel : Nat) (cur : Option String) (y : Int),
      ((downAssign bs fuel cur y).map Prod.fst).Nodup := by
  intro fuel
  induction fuel with
  | zero =>
    intro cur y
    cases cur with
    | none => rw [downAssign_none]; exact List.nodup_nil
    | some j => exact List.nodup_nil
  | succ f ih =>
    intro cur y
    cases cur with
    | none => rw [downAssign_none]; exact List.nodup_nil
    | some j =>
      rw [downAssign]
      cases hf : getBlockById bs j with
      | none => exact List.nodup_nil
      | some b =>
        rw [List.map_cons, List.nodup_cons]
        refine ⟨?_, ih b.nextBlockId (y + b.height)⟩
        intro hmem
        obtain ⟨p, hm, he⟩ := List.mem_map.mp hmem
        obtain ⟨i2, yi⟩ := p
        simp only at he
        rw [he] at hm
        obtain ⟨_, t, ht⟩ := downAssign_mem bs f b.nextBlockId (y + b.height) j yi hm
        have hcyc : idSeq bs (some j) (t + 1) = some j := by
          rw [idSeq_shift]
          have : optNext bs (some j) = b.nextBlockId := by
            rw [optNext.eq_def]
            simp only [nextIdOf, hf, Option.bind_eq_bind, Option.some_bind]
          rw [this]
          exact ht
        exact hacyc b (getBlockById_mem hf) t (by rw [getBlockById_id hf]; exact hcyc)

theorem downAssign_next (bs : List Block) :
    ∀ (fuel : Nat) (cur : Option String) (y : Int),
      (downAssign bs fuel cur y).length < fuel →
      ∀ (i : String) (yi : Int) (b : Block) (j : String),
        (i, yi) ∈ downAssign bs fuel cur y →
        getBlockById bs i = some b →
        b.nextBlockId = some j →
        (∃ cb, getBlockById bs j = some cb) →
        (j, yi + b.height) ∈ downAssign bs fuel cur y := by
  intro fuel
  induction fuel with
  | zero =>
    intro cur y hlen
    exact absurd hlen (by omega)
  | succ f ih =>
    intro cur y hlen i yi b j hm hfi hnext hcb
    cases cur with
    | none => rw [downAssign_none] at hm; exact absurd hm (List.not_mem_nil _)
    | some i0 =>
      cases hf0 : getBlockById bs i0 with
      | none =>
        simp only [downAssign, hf0] at hm
        exact absurd hm (List.not_mem_nil _)
      | some b0 =>
        simp only [downAssign, hf0] at hm hlen ⊢
        simp only [List.length_cons, Nat.add_lt_add_iff_right] at hlen
        simp only [List.mem_cons] at hm ⊢
        rcases hm with hm | hm
        · injection hm with hm1 hm2
          subst hm1
          subst hm2
          rw [hfi] at hf0
          injection hf0 with hbb
          subst hbb
          right
          obtain ⟨cb, hcb2⟩ := hcb
          cases hff : f with
          | zero => omega
          | succ f2 =>
            rw [hnext]
            simp only [downAssign, hcb2]
            exact List.mem_cons_self _ _
        · right
          exact ih b0.nextBlockId (y + b0.height) hlen i yi b j hm hfi hnext hcb

theorem upAssign_mem (bs : List Block) :
    ∀ (fuel : Nat) (cur : Option String) (y : Int) (j : String) (yj : Int),
      (j, yj) ∈ upAssign bs bs fuel cur y →
      (∃ b, getBlockById bs j = some b) ∧ ∃ t, aboveIter bs t cur = some j := by
  intro fuel
  induction fuel with
  | zero =>
    intro cur y j yj hm
    cases cur with
    | none => rw [upAssign_none] at hm; exact absurd hm (List.not_mem_nil _)
    | some i => exact absurd hm (List.not_mem_nil _)
  | succ f ih =>
    intro cur y j yj hm
    cases cur with
    | none => rw [upAssign_none] at hm; exact absurd hm (List.not_mem_nil _)
    | some i =>
      rw [upAssign] at hm
      cases hf : getBlockById bs i with
      | none => rw [hf] at hm; exact absurd hm (List.not_mem_nil _)
      | some b =>
        rw [hf] at hm
        simp only [List.mem_cons] at hm
        rcases hm with hm | hm
        · injection hm with hm1 hm2
          subst hm1
          exact ⟨⟨b, hf⟩, 0, rfl⟩
        · obtain ⟨hfound, t, ht⟩ := ih _ _ j yj hm
          refine ⟨hfound, t + 1, ?_⟩
          rw [aboveIter]
          have : aboveStep bs (some i) = (getBlockAbove bs i).map (fun a => a.id) := rfl
          rw [this]
          exact ht

theorem aboveIter_none (bs : List Block) : ∀ t : Nat, aboveIter bs t none = none := by
  intro t
  induction t with
  | zero => rfl
  | succ n ih => rw [aboveIter]; exact ih

theorem nodup_getBlockById (bs : List Block) (hnd : (bs.map (fun b => b.id)).Nodup)
    (b : Block) (hb : b ∈ bs) : getBlockById bs b.id = some b := by
  induction bs with
  | nil => cases hb
  | cons a rest ih =>
    rw [List.map_cons, List.nodup_cons] at hnd
    rw [List.mem_cons] at hb
    rcases hb with rfl | hb
    · rw [getBlockById, List.find?_cons_of_pos _ (by simp)]
    · have hne : (a.id == b.id) = false := by
        simp only [beq_eq_false_iff_ne]
        intro he
        exact hnd.1 (by rw [he]; exact List.mem_map.mpr ⟨b, hb, rfl⟩)
      rw [getBlockById, List.find?_cons]
      simp only [hne]
      exact ih hnd.2 hb

theorem aboveIter_down (bs : List Block) (hnd : (bs.map (fun b => b.id)).Nodup) :
    ∀ (t : Nat) (i j : String), aboveIter bs t (some i) = some j →
      idSeq bs (some j) t = some i := by
  intro t
  induction t with
  | zero =>
    intro i j h
    injection h with h2
    subst h2
    rfl
  | succ n ih =>
    intro i j h
    rw [aboveIter] at h
    cases habv : getBlockAbove bs i with
    | none =>
      rw [show aboveStep bs (some i) = none from by rw [aboveStep, habv]; rfl] at h
      rw [aboveIter_none] at h
      exact absurd h (by simp)
    | some pa =>
      rw [show aboveStep bs (some i) = some pa.id from by rw [aboveStep, habv]; rfl] at h
      have hstep := ih pa.id j h
      have hpa : pa ∈ bs := List.mem_of_find?_eq_some habv
      have hpnext : pa.nextBlockId = some i := by simpa using List.find?_some habv
      have hopt : optNext bs (some pa.id) = some i := by
        show nextIdOf bs pa.id = some i
        rw [nextIdOf, nodup_getBlockById bs hnd pa hpa]
        simpa using hpnext
      rw [idSeq, hstep, hopt]

theorem upAssign_nodup (bs : List Block) (hnd : (bs.map (fun b => b.id)).Nodup)
    (hacyc : Acyclic bs) :
    ∀ (fuel : Nat) (cur : Option String) (y : Int),
      ((upAssign bs bs fuel cur y).map Prod.fst).Nodup := by
  intro fuel
  induction fuel with
  | zero =>
    intro cur y
    cases cur with
    | none => rw [upAssign_none]; exact List.nodup_nil
    | some j => exact List.nodup_nil
  | succ f ih =>
    intro cur y
    cases cur with
    | none => rw [upAssign_none]; exact List.nodup_nil
    | some i =>
      cases hf : getBlockById bs i with
      | none => simp only [upAssign, hf]; exact List.nodup_nil
      | some b =>
        simp only [upAssign, hf]
        rw [List.map_cons, List.nodup_cons]
        refine ⟨?_, ih _ _⟩
        intro hmem
        obtain ⟨p, hm, he⟩ := List.mem_map.mp hmem
        obtain ⟨i2, yi⟩ := p
        simp only at he
        rw [he] at hm
        obtain ⟨_, t, ht⟩ := upAssign_mem bs f _ _ i yi hm
        have hup : aboveIter bs (t + 1) (some i) = some i := by
          rw [aboveIter]
          have : aboveStep bs (some i) = (getBlockAbove bs i).map (fun a => a.id) := rfl
          rw [this]
          exact ht
        have hcyc := aboveIter_down bs hnd (t + 1) i i hup
        exact hacyc b (getBlockById_mem hf) t (by rw [getBlockById_id hf]; exact hcyc)

theorem upAssign_fst_y (orig u : List Block) :
    ∀ (fuel : Nat) (cur : Option String) (y1 y2 : Int),
      (upAssign orig u fuel cur y1).map Prod.fst =
        (upAssign orig u fuel cur y2).map Prod.fst := by
  intro fuel
  induction fuel with
  | zero =>
    intro cur y1 y2
    cases cur <;> rfl
  | succ f ih =>
    intro cur y1 y2
    cases cur with
    | none => rw [upAssign_none, upAssign_none]
    | some i =>
      cases hf : getBlockById u i with
      | none => simp only [upAssign, hf]
      | some b =>
        simp only [upAssign, hf, List.map_cons]
        rw [ih]

/-- The link invariant of the upward walk: every assigned ancestor has a
`nextBlockId` pointing at the previously assigned block (or at the walk's
starting child), one height below it. -/
theorem upAssign_link (bs : List Block) (hnd : (bs.map (fun b => b.id)).Nodup) :
    ∀ (fuel : Nat) (childId : String) (y : Int) (j : String) (yj : Int),
      (j, yj) ∈ upAssign bs bs fuel (aboveStep bs (some childId)) y →
      ∃ pb, getBlockById bs j = some pb ∧
        ∃ m ym, pb.nextBlockId = some m ∧ yj + pb.height = ym ∧
          ((m = childId ∧ ym = y) ∨
            (m, ym) ∈ upAssign bs bs fuel (aboveStep bs (some childId)) y) := by
  intro fuel
  induction fuel with
  | zero =>
    intro childId y j yj hm
    cases hc : aboveStep bs (some childId) with
    | none => rw [hc, upAssign_none] at hm; exact absurd hm (List.not_mem_nil _)
    | some i => rw [hc] at hm; exact absurd hm (List.not_mem_nil _)
  | succ f ih =>
    intro childId y j yj hm
    cases habv : getBlockAbove bs childId with
    | none =>
      rw [show aboveStep bs (some childId) = none from by rw [aboveStep, habv]; rfl,
        upAssign_none] at hm
      exact absurd hm (List.not_mem_nil _)
    | some pa =>
      rw [show aboveStep bs (some childId) = some pa.id from by rw [aboveStep, habv]; rfl] at hm
      have hpa : pa ∈ bs := List.mem_of_find?_eq_some habv
      have hpnext : pa.nextBlockId = some childId := by simpa using List.find?_some habv
      have hfind : getBlockById bs pa.id = some pa := nodup_getBlockById bs hnd pa hpa
      simp only [upAssign, hfind] at hm
      simp only [List.mem_cons] at hm
      rcases hm with hm | hm
      · injection hm with hm1 hm2
        subst hm1
        subst hm2
        refine ⟨pa, hfind, childId, y, hpnext, by ring, Or.inl ⟨rfl, rfl⟩⟩
      · have hm2 : (j, yj) ∈ upAssign bs bs f (aboveStep bs (some pa.id)) (y - pa.height) := hm
        obtain ⟨pb, hpb, m, ym, hmn, hsum, hcase⟩ := ih pa.id (y - pa.height) j yj hm2
        refine ⟨pb, hpb, m, ym, hmn, hsum, ?_⟩
        right
        rw [show aboveStep bs (some childId) = some pa.id from by rw [aboveStep, habv]; rfl]
        simp only [upAssign, hfind]
        rcases hcase with ⟨hm3, hy3⟩ | hm3
        · subst hm3
          subst hy3
          exact List.mem_cons_self _ _
        · exact List.mem_cons_of_mem _ hm3

theorem chainIds_mem_cases (bs : List Block) :
    ∀ (fuel : Nat) (cur : Option String) (y : Int) (i : String),
      i ∈ chainIds bs fuel cur →
      i ∈ (downAssign bs fuel cur y).map Prod.fst ∨ getBlockById bs i = none := by
  intro fuel
  induction fuel with
  | zero =>
    intro cur y i hm
    cases cur with
    | none => rw [chainIds_nil_start] at hm; exact absurd hm (List.not_mem_nil _)
    | some j => exact absurd hm (List.not_mem_nil _)
  | succ f ih =>
    intro cur y i hm
    cases cur with
    | none => rw [chainIds_nil_start] at hm; exact absurd hm (List.not_mem_nil _)
    | some j =>
      rw [chainIds_succ, List.mem_cons] at hm
      cases hf : getBlockById bs j with
      | none =>
        rcases hm with rfl | hm
        · exact Or.inr hf
        · have : nextIdOf bs j = none := by rw [nextIdOf, hf]; rfl
          rw [this, chainIds_nil_start] at hm
          exact absurd hm (List.not_mem_nil _)
      | some b =>
        rcases hm with rfl | hm
        · left
          simp only [downAssign, hf, List.map_cons]
          exact List.mem_cons_self _ _
        · have hnext : nextIdOf bs j = b.nextBlockId := by
            rw [nextIdOf, hf]
            rfl
          rw [hnext] at hm
          rcases ih b.nextBlockId (y + b.height) i hm with h2 | h2
          · left
            simp only [downAssign, hf, List.map_cons]
            exact List.mem_cons_of_mem _ h2
          · exact Or.inr h2

theorem downAssign_length_le_chain (bs : List Block) :
    ∀ (fuel : Nat) (cur : Option String) (y : Int),
      (downAssign bs fuel cur y).length ≤ (chainIds bs fuel cur).length := by
  intro fuel
  induction fuel with
  | zero =>
    intro cur y
    cases cur with
    | none => rw [downAssign_none]; exact Nat.le_refl 0
    | some j => exact Nat.le_refl 0
  | succ f ih =>
    intro cur y
    cases cur with
    | none => rw [downAssign_none]; exact Nat.zero_le _
    | some j =>
      rw [chainIds_succ]
      cases hf : getBlockById bs j with
      | none => simp only [downAssign, hf]; exact Nat.zero_le _
      | some b =>
        simp only [downAssign, hf, List.length_cons]
        have hnext : nextIdOf bs j = b.nextBlockId := by rw [nextIdOf, hf]; rfl
        rw [hnext]
        exact Nat.succ_le_succ (ih b.nextBlockId (y + b.height))

theorem downAssign_fst_subset_chain (bs : List Block) :
    ∀ (fuel : Nat) (cur : Option String) (y : Int) (i : String),
      i ∈ (downAssign bs fuel cur y).map Prod.fst → i ∈ chainIds bs fuel cur := by
  intro fuel
  induction fuel with
  | zero =>
    intro cur y i hm
    cases cur with
    | none => rw [downAssign_none] at hm; exact absurd hm (List.not_mem_nil _)
    | some j => exact absurd hm (List.not_mem_nil _)
  | succ f ih =>
    intro cur y i hm
    cases cur with
    | none => rw [downAssign_none] at hm; exact absurd hm (List.not_mem_nil _)
    | some j =>
      rw [chainIds_succ]
      cases hf : getBlockById bs j with
      | none => simp only [downAssign, hf] at hm; exact absurd hm (List.not_mem_nil _)
      | some b =>
        simp only [downAssign, hf, List.map_cons, List.mem_cons] at hm
        have hnext : nextIdOf bs j = b.nextBlockId := by rw [nextIdOf, hf]; rfl
        rw [List.mem_cons, hnext]
        rcases hm with rfl | hm
        · exact Or.inl rfl
        · exact Or.inr (ih b.nextBlockId (y + b.height) i hm)

theorem idSeq_from_next (bs : List Block) (bid : String) (b0 : Block)
    (hf : getBlockById bs bid = some b0) (t : Nat) (i : String)
    (ht : idSeq bs b0.nextBlockId t = some i) :
    idSeq bs (some bid) (t + 1) = some i := by
  rw [idSeq_shift]
  have : optNext bs (some bid) = b0.nextBlockId := by
    show nextIdOf bs bid = b0.nextBlockId
    rw [nextIdOf, hf]
    rfl
  rw [this]
  exact ht

theorem bid_not_in_downAssign (bs : List Block) (hacyc : Acyclic bs) (bid : String)
    (b0 : Block) (hf : getBlockById bs bid = some b0) (fuel : Nat) (y : Int) :
    bid ∉ (downAssign bs fuel b0.nextBlockId y).map Prod.fst := by
  intro hmem
  obtain ⟨p, hm, he⟩ := List.mem_map.mp hmem
  obtain ⟨i2, yi⟩ := p
  simp only at he
  rw [he] at hm
  obtain ⟨_, t, ht⟩ := downAssign_mem bs fuel b0.nextBlockId y bid yi hm
  have hcyc := idSeq_from_next bs bid b0 hf t bid ht
  exact hacyc b0 (getBlockById_mem hf) t (by rw [getBlockById_id hf]; exact hcyc)

theorem bid_not_in_upAssign (bs : List Block) (hnd : (bs.map (fun b => b.id)).Nodup)
    (hacyc : Acyclic bs) (bid : String) (b0 : Block)
    (hf : getBlockById bs bid = some b0) (fuel : Nat) (y : Int) :
    bid ∉ (upAssign bs bs fuel (aboveStep bs (some bid)) y).map Prod.fst := by
  intro hmem
  obtain ⟨p, hm, he⟩ := List.mem_map.mp hmem
  obtain ⟨i2, yi⟩ := p
  simp only at he
  rw [he] at hm
  obtain ⟨_, t, ht⟩ := upAssign_mem bs fuel _ _ bid yi hm
  have hup : aboveIter bs (t + 1) (some bid) = some bid := by
    rw [aboveIter]
    exact ht
  have hcyc := aboveIter_down bs hnd (t + 1) bid bid hup
  exact hacyc b0 (getBlockById_mem hf) t (by rw [getBlockById_id hf]; exact hcyc)

theorem upAssign_downAssign_disjoint (bs : List Block)
    (hnd : (bs.map (fun b => b.id)).Nodup) (hacyc : Acyclic bs) (bid : String)
    (b0 : Block) (hf : getBlockById bs bid = some b0)
    (fuel1 fuel2 : Nat) (y1 y2 : Int) (i : String)
    (h1 : i ∈ (upAssign bs bs fuel1 (aboveStep bs (some bid)) y1).map Prod.fst)
    (h2 : i ∈ (downAssign bs fuel2 b0.nextBlockId y2).map Prod.fst) : False := by
  obtain ⟨p, hm1, he1⟩ := List.mem_map.mp h1
  obtain ⟨i1, yi1⟩ := p
  simp only at he1
  rw [he1] at hm1
  obtain ⟨⟨bi, hbi⟩, t1, ht1⟩ := upAssign_mem bs fuel1 _ _ i yi1 hm1
  have hup : aboveIter bs (t1 + 1) (some bid) = some i := by
    rw [aboveIter]
    exact ht1
  have hdown1 := aboveIter_down bs hnd (t1 + 1) bid i hup
  obtain ⟨p, hm2, he2⟩ := List.mem_map.mp h2
  obtain ⟨i2, yi2⟩ := p
  simp only at he2
  rw [he2] at hm2
  obtain ⟨_, t2, ht2⟩ := downAssign_mem bs fuel2 b0.nextBlockId y2 i yi2 hm2
  have hdown2 := idSeq_from_next bs bid b0 hf t2 i ht2
  have hcomb : idSeq bs (some i) ((t1 + 1) + (t2 + 1)) = some i := by
    rw [idSeq_add, hdown1, hdown2]
  have hshape : (t1 + 1) + (t2 + 1) = (t1 + t2 + 1) + 1 := by omega
  rw [hshape] at hcomb
  exact hacyc bi (getBlockById_mem hbi) (t1 + t2 + 1) (by rw [getBlockById_id hbi]; exact hcomb)

theorem ids_structOf (bs : List Block) :
    bs.map (fun b => b.id) = (structOf bs).map Prod.fst := by
  rw [structOf, List.map_map]
  rfl

theorem getBlockById_none_congr {bs1 bs2 : List Block} (h : structOf bs1 = structOf bs2)
    (i : String) : getBlockById bs1 i = none ↔ getBlockById bs2 i = none := by
  have heq : (getBlockById bs1 i).map (fun b => (b.id, b.nextBlockId)) =
      (getBlockById bs2 i).map (fun b => (b.id, b.nextBlockId)) := by
    rw [← find?_id_structOf, ← find?_id_structOf, h]
  constructor
  · intro hx
    rw [hx] at heq
    cases hy : getBlockById bs2 i with
    | none => rfl
    | some b => rw [hy] at heq; exact absurd heq (by simp)
  · intro hx
    rw [hx] at heq
    cases hy : getBlockById bs1 i with
    | none => rfl
    | some b => rw [hy] at heq; exact absurd heq (by simp)

/-- C2: a single call `moveBlock(b, newX, newY)` makes the entire chain
containing `b` (ancestors and descendants as traversed by the code)
contiguous and x-aligned — for every connected pair `(p, c)` with `p` in the
chain, `c.y = p.y + p.height` and `c.x = p.x = newX` — regardless of the
members' prior positions and of which member was moved, and it leaves every
block outside the chain unchanged. -/
theorem moveBlock_contiguity (bs : List Block) (bid : String) (nx ny : Int) (b0 : Block)
    (hf : getBlockById bs bid = some b0)
    (hnd : (bs.map (fun b => b.id)).Nodup)
    (hacyc : Acyclic bs) :
    (∀ p ∈ moveBlock bs bid nx ny, p.id ∈ chainOf bs bid →
      ∀ c ∈ moveBlock bs bid nx ny, p.nextBlockId = some c.id →
        c.y = p.y + p.height ∧ c.x = nx ∧ p.x = nx)
    ∧ (∀ i : String, i ∉ chainOf bs bid →
        getBlockById (moveBlock bs bid nx ny) i = getBlockById bs i) := by
  have hmv := moveBlock_eq bs bid nx ny b0 hf
  have hstructR : structOf (moveBlock bs bid nx ny) = structOf bs :=
    structOf_moveBlock bs bid nx ny
  have hndR : ((moveBlock bs bid nx ny).map (fun b => b.id)).Nodup := by
    rw [ids_structOf, hstructR, ← ids_structOf]
    exact hnd
  have hDAnd := downAssign_nodup bs hacyc (bs.length + 1) b0.nextBlockId (ny + b0.height)
  have hUAnd := upAssign_nodup bs hnd hacyc (bs.length + 1) (aboveStep bs (some bid)) ny
  have hnext0 : nextIdOf bs bid = b0.nextBlockId := by
    rw [nextIdOf, hf]
    rfl
  have hterm : idSeq bs b0.nextBlockId bs.length = none := by
    have h1 := idSeq_terminates bs hacyc (some bid)
    rw [idSeq_shift] at h1
    have h2 : optNext bs (some bid) = b0.nextBlockId := hnext0
    rw [h2] at h1
    exact h1
  have hDAlen : (downAssign bs (bs.length + 1) b0.nextBlockId (ny + b0.height)).length
      < bs.length + 1 := by
    have h2 := downAssign_length_le_chain bs (bs.length + 1) b0.nextBlockId (ny + b0.height)
    have h3 := chainIds_length_le bs bs.length b0.nextBlockId hterm (bs.length + 1)
    omega
  have hbidDA := bid_not_in_downAssign bs hacyc bid b0 hf (bs.length + 1) (ny + b0.height)
  have hbidUA := bid_not_in_upAssign bs hnd hacyc bid b0 hf (bs.length + 1) ny
  have lookbid : getBlockById (moveBlock bs bid nx ny) bid =
      some { b0 with x := nx, y := ny } := by
    rw [hmv, applyAssign_not_mem nx _ _ _ hbidDA, applyAssign_not_mem nx _ _ _ hbidUA,
      getBlockById_updateFirst_self bs bid (fun b => { b with x := nx, y := ny })
        (fun b => rfl), hf]
    rfl
  have lookDA : ∀ i yi,
      (i, yi) ∈ downAssign bs (bs.length + 1) b0.nextBlockId (ny + b0.height) →
      getBlockById (moveBlock bs bid nx ny) i =
        (getBlockById bs i).map (fun b => { b with x := nx, y := yi }) := by
    intro i yi hm
    have hiDA : i ∈ (downAssign bs (bs.length + 1) b0.nextBlockId (ny + b0.height)).map
        Prod.fst := List.mem_map.mpr ⟨(i, yi), hm, rfl⟩
    have hiUA : i ∉ (upAssign bs bs (bs.length + 1) (aboveStep bs (some bid)) ny).map
        Prod.fst := fun hin =>
      upAssign_downAssign_disjoint bs hnd hacyc bid b0 hf _ _ ny _ i hin hiDA
    have hibid : i ≠ bid := fun he => hbidDA (he ▸ hiDA)
    rw [hmv, applyAssign_mem nx _ _ i yi hDAnd hm, applyAssign_not_mem nx _ _ _ hiUA,
      getBlockById_updateFirst_ne bs bid i (fun b => { b with x := nx, y := ny })
        (fun b => rfl) hibid]
  have lookUA : ∀ j yj,
      (j, yj) ∈ upAssign bs bs (bs.length + 1) (aboveStep bs (some bid)) ny →
      getBlockById (moveBlock bs bid nx ny) j =
        (getBlockById bs j).map (fun b => { b with x := nx, y := yj }) := by
    intro j yj hm
    have hjUA : j ∈ (upAssign bs bs (bs.length + 1) (aboveStep bs (some bid)) ny).map
        Prod.fst := List.mem_map.mpr ⟨(j, yj), hm, rfl⟩
    have hjDA : j ∉ (downAssign bs (bs.length + 1) b0.nextBlockId (ny + b0.height)).map
        Prod.fst := fun hin =>
      upAssign_downAssign_disjoint bs hnd hacyc bid b0 hf _ _ ny _ j hjUA hin
    have hjbid : j ≠ bid := fun he => hbidUA (he ▸ hjUA)
    rw [hmv, applyAssign_not_mem nx _ _ _ hjDA, applyAssign_mem nx _ _ j yj hUAnd hm,
      getBlockById_updateFirst_ne bs bid j (fun b => { b with x := nx, y := ny })
        (fun b => rfl) hjbid]
  have hpresent : ∀ i : String, getBlockById (moveBlock bs bid nx ny) i ≠ none →
      ∃ cb, getBlockById bs i = some cb := by
    intro i hne
    cases hx : getBlockById bs i with
    | some cb => exact ⟨cb, rfl⟩
    | none => exact absurd ((getBlockById_none_congr hstructR i).mpr hx) hne
  constructor
  · intro p hpR hpchain c hcR hpc
    have hfindp := nodup_getBlockById _ hndR p hpR
    have hfindc := nodup_getBlockById _ hndR c hcR
    have hcbs : ∃ cb, getBlockById bs c.id = some cb :=
      hpresent c.id (by rw [hfindc]; simp)
    rw [chainOf, List.mem_append, List.mem_cons] at hpchain
    rcases hpchain with hup | hbid2 | hdown
    · rw [upAssign_fst_y bs bs (bs.length + 1) (aboveStep bs (some bid)) 0 ny] at hup
      obtain ⟨q, hqm, hqe⟩ := List.mem_map.mp hup
      obtain ⟨j, yj⟩ := q
      simp only at hqe
      rw [hqe] at hqm
      obtain ⟨pb, hpb, m, ym, hmnext, hsum, hcase⟩ :=
        upAssign_link bs hnd (bs.length + 1) bid ny p.id yj hqm
      have hpR2 := lookUA p.id yj hqm
      rw [hfindp, hpb] at hpR2
      simp only [Option.map_some'] at hpR2
      injection hpR2 with hpeq
      have hpy : p.y = yj := by rw [hpeq]
      have hpx : p.x = nx := by rw [hpeq]
      have hph : p.height = pb.height := by rw [hpeq]
      have hpn : p.nextBlockId = pb.nextBlockId := by rw [hpeq]
      have hcid : c.id = m := by
        have h4 : some c.id = some m := by rw [← hpc, hpn, hmnext]
        injection h4
      rcases hcase with ⟨hm1, hy1⟩ | hmm2
      · have hcbid : c.id = bid := by rw [hcid, hm1]
        have hfindc2 := hfindc
        rw [hcbid] at hfindc2
        have hc2 := hfindc2.symm.trans lookbid
        injection hc2 with hceq
        have hcy : c.y = ny := by rw [hceq]
        have hcx : c.x = nx := by rw [hceq]
        exact ⟨by omega, hcx, hpx⟩
      · obtain ⟨⟨mb, hmb⟩, _⟩ := upAssign_mem bs (bs.length + 1) _ _ m ym hmm2
        have hcR2 := lookUA m ym hmm2
        rw [hmb] at hcR2
        simp only [Option.map_some'] at hcR2
        have hfindc2 := hfindc
        rw [hcid] at hfindc2
        have hc2 := hfindc2.symm.trans hcR2
        injection hc2 with hceq
        have hcy : c.y = ym := by rw [hceq]
        have hcx : c.x = nx := by rw [hceq]
        exact ⟨by omega, hcx, hpx⟩
    · have hfindp2 := hfindp
      rw [hbid2] at hfindp2
      have hp2 := hfindp2.symm.trans lookbid
      injection hp2 with hpeq
      have hpy : p.y = ny := by rw [hpeq]
      have hpx : p.x = nx := by rw [hpeq]
      have hph : p.height = b0.height := by rw [hpeq]
      have hpn : p.nextBlockId = b0.nextBlockId := by rw [hpeq]
      have hb0next : b0.nextBlockId = some c.id := by rw [← hpc, hpn]
      obtain ⟨cb, hcb⟩ := hcbs
      have hhead : (c.id, ny + b0.height) ∈
          downAssign bs (bs.length + 1) b0.nextBlockId (ny + b0.height) := by
        rw [hb0next]
        simp only [downAssign, hcb]
        exact List.mem_cons_self _ _
      have hcR2 := lookDA c.id (ny + b0.height) hhead
      rw [hfindc, hcb] at hcR2
      simp only [Option.map_some'] at hcR2
      injection hcR2 with hceq
      have hcy : c.y = ny + b0.height := by rw [hceq]
      have hcx : c.x = nx := by rw [hceq]
      exact ⟨by omega, hcx, hpx⟩
    · rw [hnext0] at hdown
      rcases chainIds_mem_cases bs (bs.length + 1) b0.nextBlockId (ny + b0.height) p.id hdown
        with hDA | hnone
      · obtain ⟨q, hqm, hqe⟩ := List.mem_map.mp hDA
        obtain ⟨j, yp⟩ := q
        simp only at hqe
        rw [hqe] at hqm
        have hpR2 := lookDA p.id yp hqm
        rw [hfindp] at hpR2
        cases hpbx : getBlockById bs p.id with
        | none => rw [hpbx] at hpR2; exact absurd hpR2 (by simp)
        | some pb =>
          rw [hpbx] at hpR2
          simp only [Option.map_some'] at hpR2
          injection hpR2 with hpeq
          have hpy : p.y = yp := by rw [hpeq]
          have hpx : p.x = nx := by rw [hpeq]
          have hph : p.height = pb.height := by rw [hpeq]
          have hpn : p.nextBlockId = pb.nextBlockId := by rw [hpeq]
          have hpbnext : pb.nextBlockId = some c.id := by rw [← hpc, hpn]
          have hnextm := downAssign_next bs (bs.length + 1) b0.nextBlockId (ny + b0.height)
            hDAlen p.id yp pb c.id hqm hpbx hpbnext hcbs
          have hcR2 := lookDA c.id (yp + pb.height) hnextm
          obtain ⟨cb, hcb⟩ := hcbs
          rw [hfindc, hcb] at hcR2
          simp only [Option.map_some'] at hcR2
          injection hcR2 with hceq
          have hcy : c.y = yp + pb.height := by rw [hceq]
          have hcx : c.x = nx := by rw [hceq]
          exact ⟨by omega, hcx, hpx⟩
      · exact absurd ((getBlockById_none_congr hstructR p.id).mpr hnone)
          (by rw [hfindp]; simp)
  · intro i hni
    rw [chainOf, List.mem_append, List.mem_cons] at hni
    push_neg at hni
    obtain ⟨hni1, hni2, hni3⟩ := hni
    have hiUA : i ∉ (upAssign bs bs (bs.length + 1) (aboveStep bs (some bid)) ny).map
        Prod.fst := by
      rw [← upAssign_fst_y bs bs (bs.length + 1) (aboveStep bs (some bid)) 0 ny]
      exact hni1
    have hiDA : i ∉ (downAssign bs (bs.length + 1) b0.nextBlockId (ny + b0.height)).map
        Prod.fst := by
      intro hin
      apply hni3
      rw [hnext0]
      exact downAssign_fst_subset_chain bs (bs.length + 1) b0.nextBlockId (ny + b0.height) i hin
    rw [hmv, applyAssign_not_mem nx _ _ _ hiDA, applyAssign_not_mem nx _ _ _ hiUA,
      getBlockById_updateFirst_ne bs bid i (fun b => { b with x := nx, y := ny })
        (fun b => rfl) hni2]

/-- Witness for C2 at a concrete misaligned two-block chain. -/
theorem moveBlock_contiguity_witness :
    (getBlockById w2bs "p" = some w2p ∧ (w2bs.map (fun b => b.id)).Nodup ∧ Acyclic w2bs)
    ∧ (∀ i : String, i ∉ chainOf w2bs "p" →
        getBlockById (moveBlock w2bs "p" 5 100) i = getBlockById w2bs i) := by
  have hacyc : Acyclic w2bs := by
    apply acyclic_of_terminates
    intro b hb
    simp only [w2bs, w2p, w2q, List.mem_cons, List.not_mem_nil, or_false] at hb
    rcases hb with rfl | rfl
    · exact ⟨2, by decide⟩
    · exact ⟨1, by decide⟩
  exact ⟨⟨rfl, by decide, hacyc⟩,
    (moveBlock_contiguity w2bs "p" 5 100 w2p rfl (by decide) hacyc).2⟩

/-! ## Insertion wins and scans in list order on pointer-up (claim C3) -/

theorem insertionLoop_eq_find? (stackIds : List String) (first last : Block)
    (bsAll : List Block) :
    ∀ l : List Block, insertionLoop stackIds first last bsAll l =
      (l.find? (fun tb => insertCond stackIds first bsAll tb)).map
        (fun tb => insertEffect first last bsAll tb) := by
  intro l
  induction l with
  | nil => rfl
  | cons tb rest ih =>
    rw [insertionLoop, List.find?_cons]
    by_cases h : insertCond stackIds first bsAll tb = true
    · simp only [h, if_pos]
      rfl
    · rw [Bool.not_eq_true] at h
      simp only [h]
      rw [if_neg (by simp [h])]
      exact ih

theorem insertCond_true_elim (stackIds : List String) (first : Block) (bsAll : List Block)
    (T : Block) (h : insertCond stackIds first bsAll T = true) :
    ∃ nid B, T.nextBlockId = some nid ∧ getBlockById bsAll nid = some B ∧
      stackIds.contains T.id = false ∧ stackIds.contains B.id = false ∧
      T.y + T.height - 20 < first.y ∧ first.y < B.y + 20 ∧
      T.x ≤ first.x + first.width ∧ first.x ≤ T.x + T.width := by
  rw [insertCond] at h
  by_cases h1 : stackIds.contains T.id = true
  · rw [if_pos h1] at h
    exact absurd h (by simp)
  · rw [if_neg h1] at h
    rw [Bool.not_eq_true] at h1
    cases hT : T.nextBlockId with
    | none => rw [hT] at h; simp at h
    | some nid =>
      rw [hT] at h
      have h2 : (match getBlockById bsAll nid with
          | none => false
          | some bottomBlock =>
            if stackIds.contains bottomBlock.id = true then false
            else
              (decide (T.y + T.height - 20 < first.y) && decide (first.y < bottomBlock.y + 20)) &&
              (decide (first.x + first.width ≥ T.x) && decide (first.x ≤ T.x + T.width))) =
          true := h
      cases hB : getBlockById bsAll nid with
      | none => rw [hB] at h2; simp at h2
      | some B =>
        rw [hB] at h2
        have h3 : (if stackIds.contains B.id = true then false
            else
              (decide (T.y + T.height - 20 < first.y) && decide (first.y < B.y + 20)) &&
              (decide (first.x + first.width ≥ T.x) && decide (first.x ≤ T.x + T.width))) =
            true := h2
        by_cases h4 : stackIds.contains B.id = true
        · rw [if_pos h4] at h3
          exact absurd h3 (by simp)
        · rw [if_neg h4] at h3
          rw [Bool.not_eq_true] at h4
          simp only [Bool.and_eq_true, decide_eq_true_eq] at h3
          exact ⟨nid, B, rfl, hB, h1, h4, h3.1.1, h3.1.2, h3.2.1, h3.2.2⟩

theorem stackBlocksOf_mem {bs : List Block} {ids : List String} {b : Block}
    (h : b ∈ stackBlocksOf bs ids) : b.id ∈ ids ∧ b ∈ bs := by
  rw [stackBlocksOf] at h
  obtain ⟨i, hi, hfind⟩ := List.mem_filterMap.mp h
  constructor
  · rw [getBlockById_id hfind]
    exact hi
  · exact getBlockById_mem hfind

theorem handleMouseUp_some_insert (s : CanvasState) (d : DragState) (first : Block)
    (rest : List Block) (nb : List Block)
    (hd : s.dragState = some d)
    (hsb : stackBlocksOf s.blocks d.stackIds = first :: rest)
    (hins : insertionLoop d.stackIds first
      ((first :: rest).getLast (List.cons_ne_nil first rest)) s.blocks s.blocks = some nb) :
    handleMouseUp s = { s with blocks := nb, dragState := none, activeCollisions := [] } := by
  simp only [handleMouseUp, hd, hsb, hins]

/-- C3: on pointer-up with a non-empty stack, insertion is evaluated before
any append candidate: the first block `T` in list order satisfying the
insertion condition (a non-stack block with a non-stack successor `B`, the
dragged head within tolerance of the gap and horizontally overlapping `T`)
wins, the state becomes exactly the insertion effect — relink `T → first` and
`last → B`, move `first` to `(T.x, T.y + T.height)` via `moveBlock`, restack
from `first` — and no append candidate is ever consulted. -/
theorem handleMouseUp_insertion_first (s : CanvasState) (d : DragState) (first : Block)
    (rest : List Block) (T : Block)
    (hd : s.dragState = some d)
    (hsb : stackBlocksOf s.blocks d.stackIds = first :: rest)
    (hnd : (s.blocks.map (fun b => b.id)).Nodup)
    (hfind : s.blocks.find? (fun tb => insertCond d.stackIds first s.blocks tb) = some T) :
    handleMouseUp s =
      { s with blocks := (insertEffect first ((first :: rest).getLast (List.cons_ne_nil first rest)) s.blocks T),
               dragState := none, activeCollisions := [] }
    ∧ insertCond d.stackIds first s.blocks T = true
    ∧ (∃ k : Nat, s.blocks[k]? = some T ∧ ∀ j : Nat, j < k → ∀ a, s.blocks[j]? = some a →
        insertCond d.stackIds first s.blocks a = false)
    ∧ ∃ nid B, T.nextBlockId = some nid ∧ getBlockById s.blocks nid = some B ∧
        d.stackIds.contains T.id = false ∧ d.stackIds.contains B.id = false ∧
        (T.y + T.height - 20 < first.y ∧ first.y < B.y + 20 ∧
          T.x ≤ first.x + first.width ∧ first.x ≤ T.x + T.width) ∧
        nextIdOf (handleMouseUp s).blocks T.id = some first.id ∧
        nextIdOf (handleMouseUp s).blocks
          ((first :: rest).getLast (List.cons_ne_nil first rest)).id = some B.id := by
  have hcond : insertCond d.stackIds first s.blocks T = true := List.find?_some hfind
  have hins : insertionLoop d.stackIds first
      ((first :: rest).getLast (List.cons_ne_nil first rest)) s.blocks s.blocks =
      some (insertEffect first ((first :: rest).getLast (List.cons_ne_nil first rest))
        s.blocks T) := by
    rw [insertionLoop_eq_find?, hfind]
    rfl
  have hup := handleMouseUp_some_insert s d first rest _ hd hsb hins
  obtain ⟨nid, B, hT, hB, hTstk, hBstk, hv1, hv2, hh1, hh2⟩ :=
    insertCond_true_elim d.stackIds first s.blocks T hcond
  have hTmem : T ∈ s.blocks := List.mem_of_find?_eq_some hfind
  have hTfind : getBlockById s.blocks T.id = some T := nodup_getBlockById _ hnd T hTmem
  have hlastmem : ((first :: rest).getLast (List.cons_ne_nil first rest)) ∈
      stackBlocksOf s.blocks d.stackIds := by
    rw [hsb]
    exact List.getLast_mem _
  obtain ⟨hlastid, hlastbs⟩ := stackBlocksOf_mem hlastmem
  have hlastfind : getBlockById s.blocks
      ((first :: rest).getLast (List.cons_ne_nil first rest)).id =
      some ((first :: rest).getLast (List.cons_ne_nil first rest)) :=
    nodup_getBlockById _ hnd _ hlastbs
  have hTne : ((first :: rest).getLast (List.cons_ne_nil first rest)).id ≠ T.id := by
    intro he
    rw [← he] at hTstk
    simp only [List.contains_eq_any_beq, List.any_eq_false] at hTstk
    exact hTstk _ hlastid (by simp)
  have hstructE : structOf (insertEffect first
      ((first :: rest).getLast (List.cons_ne_nil first rest)) s.blocks T) =
      structOf (s.blocks.map (fun b =>
        if b.id == T.id then { b with nextBlockId := some first.id }
        else if b.id == ((first :: rest).getLast (List.cons_ne_nil first rest)).id then
          { b with nextBlockId := some B.id }
        else b)) := by
    simp only [insertEffect, hT, hB]
    rw [structOf_updateStackPositions, structOf_moveBlock]
  have hfpres : ∀ b : Block, ((fun b =>
      if b.id == T.id then { b with nextBlockId := some first.id }
      else if b.id == ((first :: rest).getLast (List.cons_ne_nil first rest)).id then
        { b with nextBlockId := some B.id }
      else b) b).id = b.id := by
    intro b
    by_cases h1 : (b.id == T.id) = true
    · simp [h1]
    · rw [Bool.not_eq_true] at h1
      by_cases h2 : (b.id == ((first :: rest).getLast (List.cons_ne_nil first rest)).id) = true
      · simp [h1, h2]
      · rw [Bool.not_eq_true] at h2
        simp [h1, h2]
  refine ⟨hup, hcond, find?_first_index _ s.blocks T hfind, nid, B, hT, hB, hTstk, hBstk,
    ⟨hv1, hv2, hh1, hh2⟩, ?_, ?_⟩
  · rw [hup]
    have h5 : nextIdOf (insertEffect first
        ((first :: rest).getLast (List.cons_ne_nil first rest)) s.blocks T) T.id =
        nextIdOf (s.blocks.map (fun b =>
          if b.id == T.id then { b with nextBlockId := some first.id }
          else if b.id == ((first :: rest).getLast (List.cons_ne_nil first rest)).id then
            { b with nextBlockId := some B.id }
          else b)) T.id := nextIdOf_congr hstructE T.id
    rw [h5, nextIdOf, getBlockById, find?_id_map hfpres, ← getBlockById]
    rw [hTfind]
    simp only [Option.map_some']
    simp
  · rw [hup]
    have h5 := nextIdOf_congr hstructE
      ((first :: rest).getLast (List.cons_ne_nil first rest)).id
    rw [h5, nextIdOf, getBlockById, find?_id_map hfpres, ← getBlockById]
    rw [hlastfind]
    simp only [Option.map_some']
    simp [hTne]

theorem handleMouseUp_insertion_first_witness :
    c3state.dragState = some c3d ∧
    stackBlocksOf c3state.blocks c3d.stackIds = c3B :: [] ∧
    c3state.blocks.find? (fun tb => insertCond c3d.stackIds c3B c3state.blocks tb) = some c3A ∧
    handleMouseUp c3state =
      { c3state with blocks := (insertEffect c3B ((c3B :: ([] : List Block)).getLast (List.cons_ne_nil c3B [])) c3state.blocks c3A),
                     dragState := none, activeCollisions := [] } :=
  ⟨rfl, rfl, rfl,
    (handleMouseUp_insertion_first c3state c3d c3B [] c3A rfl rfl (by decide) rfl).1⟩

/-! ## The drag round trip (claim C4) -/

theorem disconnect_above_none (bs : List Block) (i : String) :
    getBlockAbove (disconnectBlock bs i) i = none := by
  rw [getBlockAbove, disconnectBlock]
  apply List.find?_eq_none.mpr
  intro b hb
  obtain ⟨a, _, rfl⟩ := List.mem_map.mp hb
  by_cases hc : (a.nextBlockId == some i) = true
  · simp [hc]
  · rw [Bool.not_eq_true] at hc
    simp [hc]

theorem getBlockById_disconnect (bs : List Block) (i j : String) :
    getBlockById (disconnectBlock bs i) j =
      (getBlockById bs j).map
        (fun c => if c.nextBlockId == some i then { c with nextBlockId := none } else c) := by
  have hf : ∀ c : Block,
      ((fun c => if c.nextBlockId == some i then { c with nextBlockId := none } else c) c).id
        = c.id := by
    intro c
    by_cases hc : (c.nextBlockId == some i) = true
    · simp [hc]
    · rw [Bool.not_eq_true] at hc
      simp [hc]
  rw [getBlockById, getBlockById, disconnectBlock, find?_id_map hf]

theorem disconnect_ids (bs : List Block) (i : String) :
    (disconnectBlock bs i).map (fun b => b.id) = bs.map (fun b => b.id) := by
  rw [disconnectBlock, List.map_map]
  apply List.map_congr_left
  intro b _
  simp only [Function.comp]
  by_cases hc : (b.nextBlockId == some i) = true
  · simp [hc]
  · rw [Bool.not_eq_true] at hc
    simp [hc]

theorem disconnect_acyclic (bs : List Block) (i : String) (hacyc : Acyclic bs) :
    Acyclic (disconnectBlock bs i) := by
  intro b hb k hk
  obtain ⟨a, ha, hae⟩ := List.mem_map.mp hb
  have hid : b.id = a.id := by
    rw [← hae]
    by_cases hc : (a.nextBlockId == some i) = true <;> simp [hc]
  have h2 := @disconnect_idSeq bs i (some b.id) (k + 1) b.id hk
  rw [hid] at h2
  exact hacyc a ha k h2

theorem chain_assign_translate (bs : List Block) :
    ∀ (fuel : Nat) (cur : Option String) (y0 x0 δ : Int),
      downContigB bs fuel cur y0 = true →
      downAlignedB bs fuel cur x0 = true →
      ∀ i ∈ chainIds bs fuel cur, ∀ qi : Block, getBlockById bs i = some qi →
        (i, qi.y + δ) ∈ downAssign bs fuel cur (y0 + δ) ∧ qi.x = x0 := by
  intro fuel
  induction fuel with
  | zero =>
    intro cur y0 x0 δ _ _ i hi
    cases cur with
    | none => exact absurd hi (List.not_mem_nil _)
    | some j => exact absurd hi (List.not_mem_nil _)
  | succ f ih =>
    intro cur y0 x0 δ hcontig haligned i hi qi hqi
    cases cur with
    | none => exact absurd hi (List.not_mem_nil _)
    | some j =>
      rw [chainIds_succ] at hi
      cases hf : getBlockById bs j with
      | none =>
        have hnext : nextIdOf bs j = none := by rw [nextIdOf, hf]; rfl
        rw [hnext, chainIds_nil_start, List.mem_cons] at hi
        rcases hi with rfl | hi
        · rw [hqi] at hf
          exact absurd hf (by simp)
        · exact absurd hi (List.not_mem_nil _)
      | some b =>
        have hnext : nextIdOf bs j = b.nextBlockId := by rw [nextIdOf, hf]; rfl
        rw [hnext, List.mem_cons] at hi
        simp only [downContigB, hf, Bool.and_eq_true, decide_eq_true_eq] at hcontig
        simp only [downAlignedB, hf, Bool.and_eq_true, decide_eq_true_eq] at haligned
        rcases hi with rfl | hi
        · rw [hqi] at hf
          injection hf with hfb
          subst hfb
          constructor
          · simp only [downAssign, hqi]
            rw [hcontig.1]
            exact List.mem_cons_self _ _
          · exact haligned.1
        · have hrec := ih b.nextBlockId (y0 + b.height) x0 δ hcontig.2 haligned.2 i hi qi hqi
          refine ⟨?_, hrec.2⟩
          have he : y0 + b.height + δ = y0 + δ + b.height := by omega
          rw [he] at hrec
          simp only [downAssign, hf]
          exact List.mem_cons_of_mem _ hrec.1

theorem handleMouseUp_nosnap (s : CanvasState) (d : DragState) (first : Block)
    (rest : List Block)
    (hd : s.dragState = some d)
    (hsb : stackBlocksOf s.blocks d.stackIds = first :: rest)
    (hins : insertionLoop d.stackIds first
      ((first :: rest).getLast (List.cons_ne_nil first rest)) s.blocks s.blocks = none)
    (happ : appendLoop d.stackIds first
      ((first :: rest).getLast (List.cons_ne_nil first rest)) s.blocks s.blocks = none) :
    handleMouseUp s = { s with dragState := none, activeCollisions := [] } := by
  simp only [handleMouseUp, hd, hsb, hins, happ]

theorem dragScriptMid_eq (s0 : CanvasState) (px py dx dy : Int) (b : Block)
    (hds : s0.dragState = none)
    (hhit : s0.blocks.find? (fun bb => isPointInBlock px py bb) = some b) :
    (dragScriptMid s0 px py dx dy).blocks =
      moveBlock (disconnectBlock s0.blocks b.id) b.id (b.x + dx) (b.y + dy) ∧
    (dragScriptMid s0 px py dx dy).dragState =
      some { blockId := b.id, stackIds := sessionStack s0.blocks b.id,
             offsetX := px - b.x, offsetY := py - b.y } := by
  have h1 : handleMouseMove (px, py) s0 =
      { s0 with mousePosX := px, mousePosY := py,
                hoveredBlockId := (s0.blocks.find? (fun bb => isPointInBlock px py bb)).map
                  (fun bb => bb.id) } := by
    simp only [handleMouseMove, hds]
  have h2 : handleMouseDown (handleMouseMove (px, py) s0) =
      { s0 with mousePosX := px, mousePosY := py,
                hoveredBlockId := (s0.blocks.find? (fun bb => isPointInBlock px py bb)).map
                  (fun bb => bb.id),
                blocks := disconnectBlock s0.blocks b.id,
                activeCollisions := detectAllCollisions s0.blocks,
                dragState := some { blockId := b.id,
                                    stackIds := b.id ::
                                      getConnectedBlocksBelow (disconnectBlock s0.blocks b.id) b.id,
                                    offsetX := px - b.x, offsetY := py - b.y } } := by
    rw [h1]
    simp only [handleMouseDown, hhit]
  have e1 : px + dx - (px - b.x) = b.x + dx := by omega
  have e2 : py + dy - (py - b.y) = b.y + dy := by omega
  constructor
  · show (handleMouseMove (px + dx, py + dy)
      (handleMouseDown (handleMouseMove (px, py) s0))).blocks = _
    rw [h2]
    simp only [handleMouseMove]
    rw [e1, e2]
  · show (handleMouseMove (px + dx, py + dy)
      (handleMouseDown (handleMouseMove (px, py) s0))).dragState = _
    rw [h2]
    simp only [handleMouseMove, sessionStack]

/-- C4 counterexample: from the seed, snap block 2 under block 1 (so
`1.nextBlockId = "2"` before the drag), then grab block 2, move the pointer by
`(500, 400)` and release over empty space.  The stack is translated by exactly
`(500, 400)`, but block 1's `nextBlockId` — cleared by the pointer-down
disconnect — is never restored, so the block list does have a `nextBlockId`
value different from its pre-drag value. -/
theorem drag_roundtrip_cx :
    nextIdOf c4PreState.blocks "1" = some "2" ∧
    c4PostState.dragState = none ∧
    nextIdOf c4PostState.blocks "1" = none ∧
    getBlockById c4PreState.blocks "2" =
      some { id := "2", x := 0, y := 50, width := 200, height := 50,
             color := "blue", nextBlockId := none } ∧
    getBlockById c4PostState.blocks "2" =
      some { id := "2", x := 500, y := 450, width := 200, height := 50,
             color := "blue", nextBlockId := none } := by
  refine ⟨by decide, by decide, by decide, by decide, by decide⟩

/-- C4 (amended): grabbing block `b` at `(px, py)`, moving the pointer by
`(dx, dy)` and releasing with neither snap loop applying translates every
surviving block of the dragged stack by exactly `(dx, dy)` (given the chain
hanging below the grabbed block was contiguous and x-aligned before the drag),
leaves every block outside the stack's ids untouched relative to the
post-grab list, clears the session and the collision records — but the
`nextBlockId` structure equals that of `disconnectBlock(b)` applied at grab
time, not the pre-drag structure: the predecessor edge removed by pointer-down
is never restored. -/
theorem drag_roundtrip_translation (s0 : CanvasState) (px py dx dy : Int) (b : Block)
    (first : Block) (rest : List Block)
    (hds : s0.dragState = none)
    (hhit : s0.blocks.find? (fun bb => isPointInBlock px py bb) = some b)
    (hnd : (s0.blocks.map (fun bb => bb.id)).Nodup)
    (hacyc : Acyclic s0.blocks)
    (hcontig : downContigB (disconnectBlock s0.blocks b.id)
      ((disconnectBlock s0.blocks b.id).length + 1) b.nextBlockId (b.y + b.height) = true)
    (haligned : downAlignedB (disconnectBlock s0.blocks b.id)
      ((disconnectBlock s0.blocks b.id).length + 1) b.nextBlockId b.x = true)
    (hsb : stackBlocksOf (dragScriptMid s0 px py dx dy).blocks (sessionStack s0.blocks b.id) =
      first :: rest)
    (hins : insertionLoop (sessionStack s0.blocks b.id) first
      ((first :: rest).getLast (List.cons_ne_nil first rest))
      (dragScriptMid s0 px py dx dy).blocks (dragScriptMid s0 px py dx dy).blocks = none)
    (happ : appendLoop (sessionStack s0.blocks b.id) first
      ((first :: rest).getLast (List.cons_ne_nil first rest))
      (dragScriptMid s0 px py dx dy).blocks (dragScriptMid s0 px py dx dy).blocks = none) :
    (dragScript s0 px py dx dy).dragState = none ∧
    (dragScript s0 px py dx dy).activeCollisions = [] ∧
    structOf (dragScript s0 px py dx dy).blocks = structOf (disconnectBlock s0.blocks b.id) ∧
    (∀ i ∈ sessionStack s0.blocks b.id, ∀ q : Block, getBlockById s0.blocks i = some q →
      ∃ p : Block, getBlockById (dragScript s0 px py dx dy).blocks i = some p ∧
        p.x = q.x + dx ∧ p.y = q.y + dy ∧ p.width = q.width ∧ p.height = q.height) ∧
    (∀ i : String, i ∉ sessionStack s0.blocks b.id →
      getBlockById (dragScript s0 px py dx dy).blocks i =
        getBlockById (disconnectBlock s0.blocks b.id) i) := by
  obtain ⟨hmidb, hmidd⟩ := dragScriptMid_eq s0 px py dx dy b hds hhit
  have hfin := handleMouseUp_nosnap (dragScriptMid s0 px py dx dy)
    { blockId := b.id, stackIds := sessionStack s0.blocks b.id,
      offsetX := px - b.x, offsetY := py - b.y } first rest hmidd hsb hins happ
  have hFb : (dragScript s0 px py dx dy).blocks =
      moveBlock (disconnectBlock s0.blocks b.id) b.id (b.x + dx) (b.y + dy) := by
    rw [dragScript, hfin]
    exact hmidb
  have hFd : (dragScript s0 px py dx dy).dragState = none := by
    rw [dragScript, hfin]
  have hFc : (dragScript s0 px py dx dy).activeCollisions = [] := by
    rw [dragScript, hfin]
  have hb0 : b ∈ s0.blocks := List.mem_of_find?_eq_some hhit
  have hfind0 : getBlockById s0.blocks b.id = some b := nodup_getBlockById s0.blocks hnd b hb0
  have hbne : b.nextBlockId ≠ some b.id := by
    intro hself
    apply hacyc b hb0 0
    have hstep : idSeq s0.blocks (some b.id) (0 + 1) = nextIdOf s0.blocks b.id := rfl
    rw [hstep, nextIdOf, hfind0]
    show b.nextBlockId = some b.id
    exact hself
  have hnb1 : getBlockById (disconnectBlock s0.blocks b.id) b.id = some b := by
    rw [getBlockById_disconnect, hfind0]
    have hc : (b.nextBlockId == some b.id) = false := by
      simp only [beq_eq_false_iff_ne]
      exact hbne
    simp only [Option.map_some']
    rw [if_neg (by simp [hc])]
  have hacyc1 : Acyclic (disconnectBlock s0.blocks b.id) :=
    disconnect_acyclic s0.blocks b.id hacyc
  have hmv := moveBlock_eq (disconnectBlock s0.blocks b.id) b.id (b.x + dx) (b.y + dy) b hnb1
  have habv : aboveStep (disconnectBlock s0.blocks b.id) (some b.id) = none := by
    show (getBlockAbove (disconnectBlock s0.blocks b.id) b.id).map (fun a => a.id) = none
    rw [disconnect_above_none]
    rfl
  rw [habv, upAssign_none, applyAssign_nil] at hmv
  have hsess : sessionStack s0.blocks b.id =
      b.id :: chainIds (disconnectBlock s0.blocks b.id)
        ((disconnectBlock s0.blocks b.id).length + 1) b.nextBlockId := by
    rw [sessionStack, getConnectedBlocksBelow, hnb1]
    rfl
  have hDnd := downAssign_nodup (disconnectBlock s0.blocks b.id) hacyc1
    ((disconnectBlock s0.blocks b.id).length + 1) b.nextBlockId (b.y + dy + b.height)
  refine ⟨hFd, hFc, ?_, ?_, ?_⟩
  · rw [hFb]
    exact structOf_moveBlock _ _ _ _
  · intro i hi q hq
    rw [hsess, List.mem_cons] at hi
    rcases hi with rfl | hi
    · have hqb : q = b := by
        have h2 : some q = some b := by
          rw [← hq]
          exact hfind0
        exact Option.some_injective _ h2
      subst hqb
      refine ⟨{ q with x := q.x + dx, y := q.y + dy }, ?_, rfl, rfl, rfl, rfl⟩
      rw [hFb, hmv]
      rw [applyAssign_not_mem (q.x + dx) _ _ q.id
            (bid_not_in_downAssign _ hacyc1 q.id q hnb1 _ _),
          getBlockById_updateFirst_self _ q.id
            (fun bb => { bb with x := q.x + dx, y := q.y + dy }) (fun bb => rfl),
          hnb1]
      rfl
    · obtain ⟨qi, hq1, hqx, hqy, hqw, hqh⟩ :
          ∃ qi : Block, getBlockById (disconnectBlock s0.blocks b.id) i = some qi ∧
            qi.x = q.x ∧ qi.y = q.y ∧ qi.width = q.width ∧ qi.height = q.height := by
        rw [getBlockById_disconnect, hq]
        by_cases hqc : (q.nextBlockId == some b.id) = true
        · refine ⟨{ q with nextBlockId := none }, ?_, rfl, rfl, rfl, rfl⟩
          simp only [Option.map_some']
          rw [if_pos hqc]
        · refine ⟨q, ?_, rfl, rfl, rfl, rfl⟩
          simp only [Option.map_some']
          rw [if_neg hqc]
      obtain ⟨hmem, hqix⟩ := chain_assign_translate (disconnectBlock s0.blocks b.id)
        ((disconnectBlock s0.blocks b.id).length + 1) b.nextBlockId
        (b.y + b.height) b.x dy hcontig haligned i hi qi hq1
      have he : b.y + b.height + dy = b.y + dy + b.height := by omega
      rw [he] at hmem
      have hine : i ≠ b.id := by
        intro hie
        rw [hie] at hmem
        exact bid_not_in_downAssign _ hacyc1 b.id b hnb1
          ((disconnectBlock s0.blocks b.id).length + 1) (b.y + dy + b.height)
          (List.mem_map.mpr ⟨(b.id, qi.y + dy), hmem, rfl⟩)
      refine ⟨{ qi with x := b.x + dx, y := qi.y + dy }, ?_, ?_, ?_, hqw, hqh⟩
      · rw [hFb, hmv]
        rw [applyAssign_mem (b.x + dx) _ _ i (qi.y + dy) hDnd hmem,
            getBlockById_updateFirst_ne _ b.id i
              (fun bb => { bb with x := b.x + dx, y := b.y + dy }) (fun bb => rfl) hine,
            hq1]
        rfl
      · show b.x + dx = q.x + dx
        rw [← hqx, hqix]
      · show qi.y + dy = q.y + dy
        rw [hqy]
  · intro i hni
    rw [hsess] at hni
    rw [hFb, hmv]
    have hi1 : i ≠ b.id := fun hie => hni (hie ▸ List.mem_cons_self _ _)
    have hi2 : i ∉ (downAssign (disconnectBlock s0.blocks b.id)
        ((disconnectBlock s0.blocks b.id).length + 1) b.nextBlockId
        (b.y + dy + b.height)).map Prod.fst := by
      intro hmem
      apply hni
      exact List.mem_cons_of_mem _ (downAssign_fst_subset_chain _ _ _ _ i hmem)
    rw [applyAssign_not_mem (b.x + dx) _ _ i hi2,
        getBlockById_updateFirst_ne _ b.id i
          (fun bb => { bb with x := b.x + dx, y := b.y + dy }) (fun bb => rfl) hi1]

theorem acyclic_of_all_null (bs : List Block)
    (h : ∀ b ∈ bs, idSeq bs (some b.id) bs.length = none) : Acyclic bs := by
  apply acyclic_of_terminates
  intro b hb
  exact ⟨bs.length, h b hb⟩

theorem drag_roundtrip_translation_witness :
    c4PreState.blocks.find? (fun bb => isPointInBlock 15 65 bb) =
      some { id := "2", x := 0, y := 50, width := 200, height := 50,
             color := "blue", nextBlockId := none } ∧
    structOf (dragScript c4PreState 15 65 500 400).blocks =
      structOf (disconnectBlock c4PreState.blocks "2") ∧
    (∀ i ∈ sessionStack c4PreState.blocks "2", ∀ q : Block,
      getBlockById c4PreState.blocks i = some q →
      ∃ p : Block, getBlockById (dragScript c4PreState 15 65 500 400).blocks i = some p ∧
        p.x = q.x + 500 ∧ p.y = q.y + 400 ∧ p.width = q.width ∧ p.height = q.height) := by
  have h := drag_roundtrip_translation c4PreState 15 65 500 400
    { id := "2", x := 0, y := 50, width := 200, height := 50,
      color := "blue", nextBlockId := none }
    { id := "2", x := 500, y := 450, width := 200, height := 50,
      color := "blue", nextBlockId := none }
    [] (by decide) (by decide) (by decide)
    (acyclic_of_all_null c4PreState.blocks (by decide))
    (by decide) (by decide) (by decide) (by decide) (by decide)
  exact ⟨by decide, h.2.2.1, h.2.2.2.1⟩

/-! ## Grabbing a mid-chain block (claim C7) -/

theorem moveBlock_three_chain (A B C : Block) (nx ny : Int)
    (h1 : (A.id == B.id) = false) (h2 : (A.id == C.id) = false)
    (h3 : (B.id == C.id) = false)
    (h4 : (A.nextBlockId == some B.id) = false)
    (h5 : (B.nextBlockId == some B.id) = false)
    (h6 : (C.nextBlockId == some B.id) = false)
    (h7 : B.nextBlockId = some C.id) (h8 : C.nextBlockId = none) :
    moveBlock [A, B, C] B.id nx ny =
      [A, { B with x := nx, y := ny }, { C with x := nx, y := ny + B.height }] := by
  have hBB : (B.id == B.id) = true := by simp
  have hCC : (C.id == C.id) = true := by simp
  have hfB : getBlockById [A, B, C] B.id = some B := by
    rw [getBlockById]
    simp [List.find?_cons, h1, hBB]
  have habove : getBlockAbove [A, B, C] B.id = none := by
    rw [getBlockAbove]
    simp [List.find?_cons, h4, h5, h6]
  simp only [moveBlock, hfB, habove, Option.map_none']
  rw [moveUpLoop]
  have hupd : updateFirst [A, B, C] B.id (fun b => { b with x := nx, y := ny }) =
      [A, { B with x := nx, y := ny }, C] := by
    rw [updateFirst, if_neg (by simp [h1]), updateFirst, if_pos (by simp [hBB])]
  rw [hupd, h7]
  have hlen : ([A, B, C] : List Block).length + 1 = 3 + 1 := rfl
  rw [hlen]
  have hfC : getBlockById [A, { B with x := nx, y := ny, nextBlockId := some C.id }, C]
      C.id = some C := by
    rw [getBlockById]
    simp [List.find?_cons, h2, h3, hCC]
  have hupd2 : updateFirst [A, { B with x := nx, y := ny, nextBlockId := some C.id }, C]
      C.id (fun b => { b with x := nx, y := ny + B.height }) =
      [A, { B with x := nx, y := ny, nextBlockId := some C.id },
       { C with x := nx, y := ny + B.height }] := by
    rw [updateFirst, if_neg (by simp [h2]), updateFirst, if_neg (by simp [h3]),
        updateFirst, if_pos (by simp [hCC])]
  simp only [moveDownLoop, hfC, h8]
  rw [h8] at hupd2
  exact hupd2

/-- C7: pointer-down on the middle block `B` of a chain `A → B → C` (pointer
inside `B`, outside `A`, `C` sitting contiguously under `B`) clears
`A.nextBlockId`, preserves `B.nextBlockId = C.id`, records the drag stack
`[B.id, C.id]` (grabbed block then its descendants, head to tail), and after
every subsequent sequence of pointer moves the blocks are exactly `A`
(disconnected) and `B`, `C` with `C` rigidly attached below `B`: `C.x = B.x`
and `C.y = B.y + B.height` at every intermediate position. -/
theorem mid_chain_grab (A B C : Block) (s : CanvasState)
    (h1 : A.id ≠ B.id) (h2 : A.id ≠ C.id) (h3 : B.id ≠ C.id)
    (hA : A.nextBlockId = some B.id) (hB : B.nextBlockId = some C.id)
    (hC : C.nextBlockId = none)
    (hs : s.blocks = [A, B, C])
    (hhitA : isPointInBlock s.mousePosX s.mousePosY A = false)
    (hhitB : isPointInBlock s.mousePosX s.mousePosY B = true)
    (hCx : C.x = B.x) (hCy : C.y = B.y + B.height) :
    (handleMouseDown s).blocks = [{ A with nextBlockId := none }, B, C] ∧
    (handleMouseDown s).dragState =
      some { blockId := B.id, stackIds := [B.id, C.id],
             offsetX := s.mousePosX - B.x, offsetY := s.mousePosY - B.y } ∧
    ∀ ps : List (Int × Int),
      (ps.foldl (fun st p => handleMouseMove p st) (handleMouseDown s)).dragState =
        some { blockId := B.id, stackIds := [B.id, C.id],
               offsetX := s.mousePosX - B.x, offsetY := s.mousePosY - B.y } ∧
      ∃ xB yB : Int,
        (ps.foldl (fun st p => handleMouseMove p st) (handleMouseDown s)).blocks =
          [{ A with nextBlockId := none }, { B with x := xB, y := yB },
           { C with x := xB, y := yB + B.height }] := by
  have hab : (A.id == B.id) = false := by simp [h1]
  have hac : (A.id == C.id) = false := by simp [h2]
  have hbc : (B.id == C.id) = false := by simp [h3]
  have hcb : (C.id == B.id) = false := by simp [Ne.symm h3]
  have hAn : (A.nextBlockId == some B.id) = true := by rw [hA]; simp
  have hBn : (B.nextBlockId == some B.id) = false := by rw [hB]; simp [Ne.symm h3]
  have hCn : (C.nextBlockId == some B.id) = false := by rw [hC]; rfl
  have hfindB : s.blocks.find? (fun b => isPointInBlock s.mousePosX s.mousePosY b) =
      some B := by
    rw [hs]
    simp [List.find?_cons, hhitA, hhitB]
  have hdis : disconnectBlock s.blocks B.id = [{ A with nextBlockId := none }, B, C] := by
    rw [hs, disconnectBlock]
    simp only [List.map_cons, List.map_nil, hAn, hBn, hCn]
    simp
  have hfB1 : getBlockById [{ A with nextBlockId := none }, B, C] B.id = some B := by
    rw [getBlockById]
    simp [List.find?_cons, hab]
  have hfC1 : getBlockById [{ A with nextBlockId := none }, B, C] C.id = some C := by
    rw [getBlockById]
    simp [List.find?_cons, hac, hbc]
  have hnC1 : nextIdOf [{ A with nextBlockId := none }, B, C] C.id = none := by
    rw [nextIdOf, hfC1]
    show C.nextBlockId = none
    exact hC
  have hstack : getConnectedBlocksBelow [{ A with nextBlockId := none }, B, C] B.id =
      [C.id] := by
    have e : getConnectedBlocksBelow [{ A with nextBlockId := none }, B, C] B.id =
        chainIds [{ A with nextBlockId := none }, B, C] (3 + 1) B.nextBlockId := by
      rw [getConnectedBlocksBelow, hfB1]
      rfl
    rw [e, hB, chainIds_succ, hnC1, chainIds_nil_start]
  have hdown : handleMouseDown s =
      { s with blocks := [{ A with nextBlockId := none }, B, C],
               activeCollisions := detectAllCollisions s.blocks,
               dragState := some { blockId := B.id, stackIds := [B.id, C.id],
                                   offsetX := s.mousePosX - B.x,
                                   offsetY := s.mousePosY - B.y } } := by
    simp only [handleMouseDown, hfindB, hdis, hstack]
  have key : ∀ ps : List (Int × Int), ∀ st : CanvasState,
      st.dragState = some { blockId := B.id, stackIds := [B.id, C.id],
                            offsetX := s.mousePosX - B.x, offsetY := s.mousePosY - B.y } →
      (∃ xB yB : Int, st.blocks =
        [{ A with nextBlockId := none }, { B with x := xB, y := yB },
         { C with x := xB, y := yB + B.height }]) →
      (ps.foldl (fun st2 p => handleMouseMove p st2) st).dragState =
        some { blockId := B.id, stackIds := [B.id, C.id],
               offsetX := s.mousePosX - B.x, offsetY := s.mousePosY - B.y } ∧
      ∃ xB yB : Int, (ps.foldl (fun st2 p => handleMouseMove p st2) st).blocks =
        [{ A with nextBlockId := none }, { B with x := xB, y := yB },
         { C with x := xB, y := yB + B.height }] := by
    intro ps
    induction ps with
    | nil =>
      intro st hd hinv
      exact ⟨hd, hinv⟩
    | cons p ps ih =>
      intro st hd hinv
      obtain ⟨xB, yB, hbl⟩ := hinv
      rw [List.foldl_cons]
      apply ih
      · simp only [handleMouseMove, hd]
      · refine ⟨p.1 - (s.mousePosX - B.x), p.2 - (s.mousePosY - B.y), ?_⟩
        simp only [handleMouseMove, hd, hbl]
        exact moveBlock_three_chain
          { A with nextBlockId := none } { B with x := xB, y := yB }
          { C with x := xB, y := yB + B.height }
          (p.1 - (s.mousePosX - B.x)) (p.2 - (s.mousePosY - B.y))
          hab hac hbc rfl hBn hCn hB hC
  have hBeta : { B with x := B.x, y := B.y } = B := rfl
  have hCeta : { C with x := B.x, y := B.y + B.height } = C := by
    rw [← hCx, ← hCy]
  refine ⟨by rw [hdown], by rw [hdown], ?_⟩
  intro ps
  apply key ps (handleMouseDown s)
  · rw [hdown]
  · refine ⟨B.x, B.y, ?_⟩
    rw [hBeta, hCeta, hdown]

theorem mid_chain_grab_witness :
    (handleMouseDown c7state).blocks = [{ c7A with nextBlockId := none }, c7B, c7C] ∧
    (handleMouseDown c7state).dragState =
      some { blockId := "B", stackIds := ["B", "C"], offsetX := 10, offsetY := 10 } ∧
    ((([((200 : Int), (300 : Int))]).foldl (fun st p => handleMouseMove p st)
        (handleMouseDown c7state)).dragState =
      some { blockId := "B", stackIds := ["B", "C"], offsetX := 10, offsetY := 10 }) ∧
    ∃ xB yB : Int,
      (([((200 : Int), (300 : Int))]).foldl (fun st p => handleMouseMove p st)
        (handleMouseDown c7state)).blocks =
        [{ c7A with nextBlockId := none }, { c7B with x := xB, y := yB },
         { c7C with x := xB, y := yB + c7B.height }] := by
  have h := mid_chain_grab c7A c7B c7C c7state (by decide) (by decide) (by decide)
    rfl rfl rfl rfl (by decide) (by decide) (by decide) (by decide)
  exact ⟨h.1, h.2.1, (h.2.2 [(200, 300)]).1, (h.2.2 [(200, 300)]).2⟩
